import Mathlib

/-!
Verification development for the xbrz-rs pixel-art upscaler.

The definitions below are a shallow embedding of the Rust sources:
`src/pixel.rs`, `src/ycbcr_lookup.rs`, `src/kernel.rs`, `src/blend.rs`,
`src/matrix.rs`, `src/oob_reader.rs`, `src/scaler.rs` and `src/lib.rs`.
Machine integers (`u8`, `i8`, `i16`, `usize`) are modelled as `Nat`/`Int`
with explicit wrapping (`% 256`) at every narrowing cast site of the source;
Rust's truncating integer division on signed values is `Int.tdiv`.
The floating point colour distance is modelled over the real numbers with
the exact Rec.2020 constants of the source formula.
-/

namespace Xbrz

/-- Reinterpretation of an integer as a signed 8-bit two's complement value,
modelling Rust `as i8` casts (`must_cast::<_, i8>`). -/
def toI8 (z : ℤ) : ℤ := (z + 128) % 256 - 128

/-- Reinterpretation of an integer as an unsigned 8-bit value, modelling Rust
`as u8` casts (`must_cast::<_, u8>`). -/
def toU8 (z : ℤ) : ℕ := (z % 256).toNat

theorem toU8_lt (z : ℤ) : toU8 z < 256 := by
  have h0 : (0 : ℤ) ≤ z % 256 := Int.emod_nonneg z (by decide)
  have h1 : z % 256 < 256 := Int.emod_lt_of_pos z (by decide)
  unfold toU8
  omega

/-- RGBA pixel with four 8-bit channels, the `Rgba8` type of `src/pixel.rs`.
Fields are natural numbers; a pixel coming from an image byte buffer always
has all channels below 256 (`Rgba.valid`). -/
structure Rgba where
  r : ℕ
  g : ℕ
  b : ℕ
  a : ℕ
deriving DecidableEq, Repr

/-- All four channels fit in 8 bits, as the Rust `u8` fields guarantee. -/
def Rgba.valid (p : Rgba) : Prop := p.r < 256 ∧ p.g < 256 ∧ p.b < 256 ∧ p.a < 256

instance (p : Rgba) : Decidable p.valid := by
  unfold Rgba.valid
  infer_instance

/-- The zero pixel, `P::default()` in the source: all channels 0. -/
def zeroPixel : Rgba := ⟨0, 0, 0, 0⟩

/-- `weight_front` of `gradient_rgba` in src/pixel.rs: `front.alpha() as usize * M`. -/
def weight_front (front : Rgba) (M : ℕ) : ℕ := front.a * M

/-- `weight_back` of `gradient_rgba` in src/pixel.rs: `back.alpha() as usize * (N - M)`. -/
def weight_back (back : Rgba) (M N : ℕ) : ℕ := back.a * (N - M)

/-- `weight_sum` of `gradient_rgba` in src/pixel.rs. -/
def weight_sum (front back : Rgba) (M N : ℕ) : ℕ :=
  weight_front front M + weight_back back M N

/-- `gradient_rgba` from src/pixel.rs. The `as u8` narrowing casts of the
source are modelled by `% 256`; `usize` division on non-negative values is
`Nat` division (truncation). -/
def gradient_rgba (M N : ℕ) (front back : Rgba) : Rgba :=
  let wf := weight_front front M
  let wb := weight_back back M N
  let ws := wf + wb
  if ws = 0 then zeroPixel
  else
    ⟨((front.r * wf + back.r * wb) / ws) % 256,
     ((front.g * wf + back.g * wb) / ws) % 256,
     ((front.b * wf + back.b * wb) / ws) % 256,
     (ws / N) % 256⟩

theorem channel_quot_le_255 {fc bc wf wb : ℕ} (hf : fc < 256) (hb : bc < 256)
    (hw : 0 < wf + wb) : (fc * wf + bc * wb) / (wf + wb) ≤ 255 := by
  have h : fc * wf + bc * wb ≤ 255 * (wf + wb) := by
    have h1 : fc * wf ≤ 255 * wf := Nat.mul_le_mul_right wf (by omega)
    have h2 : bc * wb ≤ 255 * wb := Nat.mul_le_mul_right wb (by omega)
    calc fc * wf + bc * wb ≤ 255 * wf + 255 * wb := Nat.add_le_add h1 h2
      _ = 255 * (wf + wb) := by ring
  calc (fc * wf + bc * wb) / (wf + wb) ≤ 255 * (wf + wb) / (wf + wb) :=
        Nat.div_le_div_right h
    _ = 255 := Nat.mul_div_cancel 255 hw

theorem alpha_quot_le_255 {front back : Rgba} {M N : ℕ} (hMN : M ≤ N)
    (hN : 0 < N) (hfa : front.a < 256) (hba : back.a < 256) :
    weight_sum front back M N / N ≤ 255 := by
  have h : weight_sum front back M N ≤ 255 * N := by
    unfold weight_sum weight_front weight_back
    have h1 : front.a * M ≤ 255 * M := Nat.mul_le_mul_right M (by omega)
    have h2 : back.a * (N - M) ≤ 255 * (N - M) := Nat.mul_le_mul_right (N - M) (by omega)
    calc front.a * M + back.a * (N - M) ≤ 255 * M + 255 * (N - M) := Nat.add_le_add h1 h2
      _ = 255 * (M + (N - M)) := by ring
      _ = 255 * N := by rw [Nat.add_sub_cancel' hMN]
  calc weight_sum front back M N / N ≤ 255 * N / N := Nat.div_le_div_right h
    _ = 255 := Nat.mul_div_cancel 255 hN

/-- C4: under `0 < M < N ≤ 1000`, `gradient_rgba` returns the zero pixel when
the weighted alpha sum vanishes, and otherwise the pixel whose colour channels
are the `weight_front`/`weight_back`-weighted averages, truncated, and whose
alpha is `weight_sum / N`, exactly as the claim's integer formula states
(the `as u8` casts in the code never change the value). -/
theorem gradient_rgba_formula (front back : Rgba) (M N : ℕ)
    (hM : 0 < M) (hMN : M < N) (hN : N ≤ 1000)
    (hf : front.valid) (hb : back.valid) :
    gradient_rgba M N front back =
      if weight_sum front back M N = 0 then zeroPixel
      else
        ⟨(front.r * weight_front front M + back.r * weight_back back M N) /
            weight_sum front back M N,
         (front.g * weight_front front M + back.g * weight_back back M N) /
            weight_sum front back M N,
         (front.b * weight_front front M + back.b * weight_back back M N) /
            weight_sum front back M N,
         weight_sum front back M N / N⟩ := by
  obtain ⟨hfr, hfg, hfb, hfa⟩ := hf
  obtain ⟨hbr, hbg, hbb, hba⟩ := hb
  unfold gradient_rgba
  by_cases hws : weight_sum front back M N = 0
  · simp only [weight_sum] at hws
    simp [hws, weight_sum, weight_front, weight_back] at *
    simp [hws]
  · have hpos : 0 < weight_front front M + weight_back back M N := by
      have := hws
      unfold weight_sum at this
      omega
    have e1 := @channel_quot_le_255 front.r back.r (weight_front front M)
      (weight_back back M N) hfr hbr hpos
    have e2 := @channel_quot_le_255 front.g back.g (weight_front front M)
      (weight_back back M N) hfg hbg hpos
    have e3 := @channel_quot_le_255 front.b back.b (weight_front front M)
      (weight_back back M N) hfb hbb hpos
    have e4 := @alpha_quot_le_255 front back M N (Nat.le_of_lt hMN)
      (by omega) hfa hba
    unfold weight_sum at hws e4
    simp only [hws, if_false, weight_sum]
    have m1 : (front.r * weight_front front M + back.r * weight_back back M N) /
        (weight_front front M + weight_back back M N) % 256 =
        (front.r * weight_front front M + back.r * weight_back back M N) /
        (weight_front front M + weight_back back M N) := Nat.mod_eq_of_lt (by omega)
    have m2 : (front.g * weight_front front M + back.g * weight_back back M N) /
        (weight_front front M + weight_back back M N) % 256 =
        (front.g * weight_front front M + back.g * weight_back back M N) /
        (weight_front front M + weight_back back M N) := Nat.mod_eq_of_lt (by omega)
    have m3 : (front.b * weight_front front M + back.b * weight_back back M N) /
        (weight_front front M + weight_back back M N) % 256 =
        (front.b * weight_front front M + back.b * weight_back back M N) /
        (weight_front front M + weight_back back M N) := Nat.mod_eq_of_lt (by omega)
    have m4 : (weight_front front M + weight_back back M N) / N % 256 =
        (weight_front front M + weight_back back M N) / N := Nat.mod_eq_of_lt (by omega)
    simp only [m1, m2, m3, m4]

/-- Witness for `gradient_rgba_formula` at a concrete input. -/
theorem gradient_rgba_formula_witness :
    (0 < 21 ∧ 21 < 100 ∧ 100 ≤ 1000 ∧
      Rgba.valid ⟨255, 0, 0, 255⟩ ∧ Rgba.valid ⟨7, 11, 13, 0⟩) ∧
    gradient_rgba 21 100 ⟨255, 0, 0, 255⟩ ⟨7, 11, 13, 0⟩ =
      if weight_sum ⟨255, 0, 0, 255⟩ ⟨7, 11, 13, 0⟩ 21 100 = 0 then zeroPixel
      else
        ⟨(255 * weight_front ⟨255, 0, 0, 255⟩ 21 + 7 * weight_back ⟨7, 11, 13, 0⟩ 21 100) /
            weight_sum ⟨255, 0, 0, 255⟩ ⟨7, 11, 13, 0⟩ 21 100,
         (0 * weight_front ⟨255, 0, 0, 255⟩ 21 + 11 * weight_back ⟨7, 11, 13, 0⟩ 21 100) /
            weight_sum ⟨255, 0, 0, 255⟩ ⟨7, 11, 13, 0⟩ 21 100,
         (0 * weight_front ⟨255, 0, 0, 255⟩ 21 + 13 * weight_back ⟨7, 11, 13, 0⟩ 21 100) /
            weight_sum ⟨255, 0, 0, 255⟩ ⟨7, 11, 13, 0⟩ 21 100,
         weight_sum ⟨255, 0, 0, 255⟩ ⟨7, 11, 13, 0⟩ 21 100 / 100⟩ :=
  ⟨⟨by decide, by decide, by decide, by decide, by decide⟩,
    gradient_rgba_formula ⟨255, 0, 0, 255⟩ ⟨7, 11, 13, 0⟩ 21 100
      (by decide) (by decide) (by decide) (by decide) (by decide)⟩

/-- C10: in `gradient_rgba` under `0 < M < N ≤ 1000` and a positive weight
sum, every value narrowed to `u8` is already at most 255, and every
intermediate `usize` value is far below `2^64`, so no cast wraps and no
arithmetic overflows. -/
theorem gradient_rgba_no_overflow (front back : Rgba) (M N : ℕ)
    (hM : 0 < M) (hMN : M < N) (hN : N ≤ 1000)
    (hf : front.valid) (hb : back.valid)
    (hws : 0 < weight_sum front back M N) :
    ((front.r * weight_front front M + back.r * weight_back back M N) /
        weight_sum front back M N ≤ 255 ∧
     (front.g * weight_front front M + back.g * weight_back back M N) /
        weight_sum front back M N ≤ 255 ∧
     (front.b * weight_front front M + back.b * weight_back back M N) /
        weight_sum front back M N ≤ 255 ∧
     weight_sum front back M N / N ≤ 255) ∧
    (front.r * weight_front front M + back.r * weight_back back M N < 2 ^ 64 ∧
     front.g * weight_front front M + back.g * weight_back back M N < 2 ^ 64 ∧
     front.b * weight_front front M + back.b * weight_back back M N < 2 ^ 64 ∧
     weight_sum front back M N < 2 ^ 64) := by
  obtain ⟨hfr, hfg, hfb, hfa⟩ := hf
  obtain ⟨hbr, hbg, hbb, hba⟩ := hb
  have hpos : 0 < weight_front front M + weight_back back M N := hws
  have hbound : weight_sum front back M N ≤ 255 * N := by
    unfold weight_sum weight_front weight_back
    have h1 : front.a * M ≤ 255 * M := Nat.mul_le_mul_right M (by omega)
    have h2 : back.a * (N - M) ≤ 255 * (N - M) := Nat.mul_le_mul_right (N - M) (by omega)
    calc front.a * M + back.a * (N - M) ≤ 255 * M + 255 * (N - M) := Nat.add_le_add h1 h2
      _ = 255 * (M + (N - M)) := by ring
      _ = 255 * N := by rw [Nat.add_sub_cancel' (Nat.le_of_lt hMN)]
  have hws64 : weight_sum front back M N < 2 ^ 64 := by
    have : (255 : ℕ) * N ≤ 255 * 1000 := Nat.mul_le_mul_left 255 hN
    omega
  have inter : ∀ fc bc : ℕ, fc < 256 → bc < 256 →
      fc * weight_front front M + bc * weight_back back M N < 2 ^ 64 := by
    intro fc bc h1 h2
    have hf1 : fc * weight_front front M ≤ 255 * weight_front front M :=
      Nat.mul_le_mul_right _ (by omega)
    have hf2 : bc * weight_back back M N ≤ 255 * weight_back back M N :=
      Nat.mul_le_mul_right _ (by omega)
    have : fc * weight_front front M + bc * weight_back back M N ≤
        255 * weight_sum front back M N := by
      unfold weight_sum
      calc fc * weight_front front M + bc * weight_back back M N ≤
            255 * weight_front front M + 255 * weight_back back M N := Nat.add_le_add hf1 hf2
        _ = 255 * (weight_front front M + weight_back back M N) := by ring
    have h255 : (255 : ℕ) * weight_sum front back M N ≤ 255 * (255 * 1000) := by
      apply Nat.mul_le_mul_left
      have : (255 : ℕ) * N ≤ 255 * 1000 := Nat.mul_le_mul_left 255 hN
      omega
    omega
  refine ⟨⟨?_, ?_, ?_, ?_⟩, ⟨inter _ _ hfr hbr, inter _ _ hfg hbg, inter _ _ hfb hbb, hws64⟩⟩
  · exact channel_quot_le_255 hfr hbr hpos
  · exact channel_quot_le_255 hfg hbg hpos
  · exact channel_quot_le_255 hfb hbb hpos
  · exact alpha_quot_le_255 (Nat.le_of_lt hMN) (by omega) hfa hba

/-- Witness for `gradient_rgba_no_overflow` at a concrete input. -/
theorem gradient_rgba_no_overflow_witness :
    (0 < 21 ∧ 21 < 100 ∧ 100 ≤ 1000 ∧
      Rgba.valid ⟨255, 0, 0, 255⟩ ∧ Rgba.valid ⟨7, 11, 13, 128⟩ ∧
      0 < weight_sum ⟨255, 0, 0, 255⟩ ⟨7, 11, 13, 128⟩ 21 100) ∧
    ((255 * weight_front ⟨255, 0, 0, 255⟩ 21 +
        7 * weight_back ⟨7, 11, 13, 128⟩ 21 100) /
        weight_sum ⟨255, 0, 0, 255⟩ ⟨7, 11, 13, 128⟩ 21 100 ≤ 255 ∧
     (0 * weight_front ⟨255, 0, 0, 255⟩ 21 +
        11 * weight_back ⟨7, 11, 13, 128⟩ 21 100) /
        weight_sum ⟨255, 0, 0, 255⟩ ⟨7, 11, 13, 128⟩ 21 100 ≤ 255 ∧
     (0 * weight_front ⟨255, 0, 0, 255⟩ 21 +
        13 * weight_back ⟨7, 11, 13, 128⟩ 21 100) /
        weight_sum ⟨255, 0, 0, 255⟩ ⟨7, 11, 13, 128⟩ 21 100 ≤ 255 ∧
     weight_sum ⟨255, 0, 0, 255⟩ ⟨7, 11, 13, 128⟩ 21 100 / 100 ≤ 255) ∧
    (255 * weight_front ⟨255, 0, 0, 255⟩ 21 +
        7 * weight_back ⟨7, 11, 13, 128⟩ 21 100 < 2 ^ 64 ∧
     0 * weight_front ⟨255, 0, 0, 255⟩ 21 +
        11 * weight_back ⟨7, 11, 13, 128⟩ 21 100 < 2 ^ 64 ∧
     0 * weight_front ⟨255, 0, 0, 255⟩ 21 +
        13 * weight_back ⟨7, 11, 13, 128⟩ 21 100 < 2 ^ 64 ∧
     weight_sum ⟨255, 0, 0, 255⟩ ⟨7, 11, 13, 128⟩ 21 100 < 2 ^ 64) :=
  ⟨⟨by decide, by decide, by decide, by decide, by decide, by decide⟩,
    gradient_rgba_no_overflow ⟨255, 0, 0, 255⟩ ⟨7, 11, 13, 128⟩ 21 100
      (by decide) (by decide) (by decide) (by decide) (by decide) (by decide)⟩

/-! ### Colour-distance lookup table (src/ycbcr_lookup.rs)

`new_small` iterates every 15-bit key, `new_large` every 24-bit key, decoding
each key into sign-reduced channel differences and storing the computed
distance. The tables are modelled generically in the stored value: the claim
about construction/lookup consistency holds for whatever `f32` value the
distance formula computes, so the table is built over an arbitrary
`f : ℤ → ℤ → ℤ → α`. -/

/-- The decoded red difference for key `i` in `new_small`:
`must_cast::<_, i8>((((i >> 10) & 0x1F) << 3) as u8) as i16 * 2`. -/
def r_diff_small (i : ℕ) : ℤ := toI8 ((((i / 1024) % 32) * 8 : ℕ) : ℤ) * 2

/-- The decoded green difference for key `i` in `new_small`. -/
def g_diff_small (i : ℕ) : ℤ := toI8 ((((i / 32) % 32) * 8 : ℕ) : ℤ) * 2

/-- The decoded blue difference for key `i` in `new_small`. -/
def b_diff_small (i : ℕ) : ℤ := toI8 (((i % 32) * 8 : ℕ) : ℤ) * 2

/-- The decoded red difference for key `i` in `new_large`:
`must_cast::<_, i8>(((i >> 16) & 0xFF) as u8) as i16 * 2`. -/
def r_diff_large (i : ℕ) : ℤ := toI8 (((i / 65536) % 256 : ℕ) : ℤ) * 2

/-- The decoded green difference for key `i` in `new_large`. -/
def g_diff_large (i : ℕ) : ℤ := toI8 (((i / 256) % 256 : ℕ) : ℤ) * 2

/-- The decoded blue difference for key `i` in `new_large`. -/
def b_diff_large (i : ℕ) : ℤ := toI8 ((i % 256 : ℕ) : ℤ) * 2

/-- `YCbCrLookup::new_small`, generic in the stored distance value. -/
def new_small {α : Type _} (f : ℤ → ℤ → ℤ → α) : List α :=
  (List.range 32768).map fun i => f (r_diff_small i) (g_diff_small i) (b_diff_small i)

/-- `YCbCrLookup::new_large`, generic in the stored distance value. -/
def new_large {α : Type _} (f : ℤ → ℤ → ℤ → α) : List α :=
  (List.range 16777216).map fun i => f (r_diff_large i) (g_diff_large i) (b_diff_large i)

/-- The sign-reduced channel difference computed by `dist_rgb8`:
`must_cast::<_, u8>((((c1 as i16) - (c2 as i16)) / 2) as i8)`. Rust `i16`
division truncates toward zero, hence `Int.tdiv`. -/
def diff_part (c1 c2 : ℕ) : ℕ := toU8 (toI8 (Int.tdiv ((c1 : ℤ) - (c2 : ℤ)) 2))

/-- The 15-bit table index computed by `dist_rgb8` in the `IDiff555` case:
`((r_part >> 3) << 10) | ((g_part >> 3) << 5) | (b_part >> 3)` (the three
bit fields are disjoint, so the bitwise ors are additions). -/
def small_index (p1 p2 : Rgba) : ℕ :=
  (diff_part p1.r p2.r / 8) * 1024 + (diff_part p1.g p2.g / 8) * 32 +
    diff_part p1.b p2.b / 8

/-- The 24-bit table index computed by `dist_rgb8` in the `IDiff888` case:
`(r_part << 16) | (g_part << 8) | b_part`. -/
def large_index (p1 p2 : Rgba) : ℕ :=
  diff_part p1.r p2.r * 65536 + diff_part p1.g p2.g * 256 + diff_part p1.b p2.b

/-- `dist_rgb8` on the small table: a bounded array read. -/
def dist_rgb8_small {α : Type _} (f : ℤ → ℤ → ℤ → α) (p1 p2 : Rgba) (dflt : α) : α :=
  (new_small f).getD (small_index p1 p2) dflt

/-- `dist_rgb8` on the large table: a bounded array read. -/
def dist_rgb8_large {α : Type _} (f : ℤ → ℤ → ℤ → α) (p1 p2 : Rgba) (dflt : α) : α :=
  (new_large f).getD (large_index p1 p2) dflt

theorem range_map_getD {α : Type _} (f : ℕ → α) (n i : ℕ) (h : i < n) (d : α) :
    ((List.range n).map f).getD i d = f i := by
  rw [List.getD_eq_getElem?_getD]
  rw [List.getElem?_map]
  rw [List.getElem?_range h]
  rfl

theorem small_channel_roundtrip :
    ∀ k : ℕ, k < 32 → toU8 (toI8 (Int.tdiv (toI8 ((k * 8 : ℕ) : ℤ) * 2) 2)) / 8 = k := by
  decide

set_option maxRecDepth 4000 in
theorem large_channel_roundtrip :
    ∀ k : ℕ, k < 256 → toU8 (toI8 (Int.tdiv (toI8 (k : ℤ) * 2) 2)) = k := by decide

/-- C6: in both table modes, querying the lookup with a pair of pixels whose
channel differences are exactly differences decoded during table
construction returns exactly the value that the construction loop stored for
those differences — bit-exactly, since this holds for an arbitrary stored
value type. The two modes are quantified independently: `p1, p2` with small
key `i` for the 15-bit table and `q1, q2` with large key `j` for the 24-bit
table. -/
theorem lut_construction_query_roundtrip {α β : Type _}
    (f : ℤ → ℤ → ℤ → α) (g : ℤ → ℤ → ℤ → β) (dfa : α) (dfb : β)
    (p1 p2 q1 q2 : Rgba) (i j : ℕ) (hi : i < 32768) (hj : j < 16777216)
    (hir : (p1.r : ℤ) - p2.r = r_diff_small i)
    (hig : (p1.g : ℤ) - p2.g = g_diff_small i)
    (hib : (p1.b : ℤ) - p2.b = b_diff_small i)
    (hjr : (q1.r : ℤ) - q2.r = r_diff_large j)
    (hjg : (q1.g : ℤ) - q2.g = g_diff_large j)
    (hjb : (q1.b : ℤ) - q2.b = b_diff_large j) :
    dist_rgb8_small f p1 p2 dfa =
      f ((p1.r : ℤ) - p2.r) ((p1.g : ℤ) - p2.g) ((p1.b : ℤ) - p2.b) ∧
    dist_rgb8_large g q1 q2 dfb =
      g ((q1.r : ℤ) - q2.r) ((q1.g : ℤ) - q2.g) ((q1.b : ℤ) - q2.b) := by
  have kr : i / 1024 % 32 < 32 := Nat.mod_lt _ (by decide)
  have kg : i / 32 % 32 < 32 := Nat.mod_lt _ (by decide)
  have kb : i % 32 < 32 := Nat.mod_lt _ (by decide)
  have br : j / 65536 % 256 < 256 := Nat.mod_lt _ (by decide)
  have bg : j / 256 % 256 < 256 := Nat.mod_lt _ (by decide)
  have bb : j % 256 < 256 := Nat.mod_lt _ (by decide)
  have hsi : small_index p1 p2 = i := by
    unfold small_index diff_part
    rw [hir, hig, hib]
    unfold r_diff_small g_diff_small b_diff_small
    rw [small_channel_roundtrip _ kr, small_channel_roundtrip _ kg,
      small_channel_roundtrip _ kb]
    omega
  have hli : large_index q1 q2 = j := by
    unfold large_index diff_part
    rw [hjr, hjg, hjb]
    unfold r_diff_large g_diff_large b_diff_large
    rw [large_channel_roundtrip _ br, large_channel_roundtrip _ bg,
      large_channel_roundtrip _ bb]
    omega
  constructor
  · unfold dist_rgb8_small new_small
    rw [hsi, range_map_getD _ _ _ hi, hir, hig, hib]
  · unfold dist_rgb8_large new_large
    rw [hli, range_map_getD _ _ _ hj, hjr, hjg, hjb]

/-- Witness for `lut_construction_query_roundtrip`: the small-mode pair
`(0,0,16,0)` and `(0,0,0,0)` has channel differences `(0,0,16)`, decoded
during small construction at key 1; the large-mode pair `(2,0,0,0)` and
`(0,0,0,0)` has differences `(2,0,0)`, decoded during large construction at
key 65536 (a difference no small key decodes). -/
theorem lut_construction_query_roundtrip_witness :
    ((1 : ℕ) < 32768 ∧ (65536 : ℕ) < 16777216 ∧
      ((16 : ℤ) - 0 = b_diff_small 1 ∧ (2 : ℤ) - 0 = r_diff_large 65536)) ∧
    (dist_rgb8_small (fun a b c => (a, b, c)) ⟨0, 0, 16, 0⟩ ⟨0, 0, 0, 0⟩ (0, 0, 0) =
        (((0 : ℤ) - 0), ((0 : ℤ) - 0), ((16 : ℤ) - 0)) ∧
     dist_rgb8_large (fun a b c => (a, b, c)) ⟨2, 0, 0, 0⟩ ⟨0, 0, 0, 0⟩ (0, 0, 0) =
        (((2 : ℤ) - 0), ((0 : ℤ) - 0), ((0 : ℤ) - 0))) :=
  ⟨⟨by decide, by decide, by decide, by decide⟩,
    lut_construction_query_roundtrip (fun a b c => (a, b, c)) (fun a b c => (a, b, c))
      (0, 0, 0) (0, 0, 0) ⟨0, 0, 16, 0⟩ ⟨0, 0, 0, 0⟩ ⟨2, 0, 0, 0⟩ ⟨0, 0, 0, 0⟩
      1 65536
      (by decide) (by decide) (by decide) (by decide) (by decide)
      (by decide) (by decide) (by decide)⟩

/-! ### Closed-form Rec.2020 distance (src/ycbcr_lookup.rs, `dist_ycbcr`)

The `f64` formula is modelled over the real numbers with the exact constants
of the source. -/

/-- `K_B = 0.0593` of `dist_ycbcr`. -/
def k_b_const : ℝ := 0.0593

/-- `K_R = 0.2627` of `dist_ycbcr`. -/
def k_r_const : ℝ := 0.2627

/-- `K_G = 1.0 - K_B - K_R` of `dist_ycbcr`. -/
def k_g_const : ℝ := 1 - k_b_const - k_r_const

/-- `SCALE_B = 0.5 / (1.0 - K_B)` of `dist_ycbcr`. -/
noncomputable def scale_b_const : ℝ := 0.5 / (1 - k_b_const)

/-- `SCALE_R = 0.5 / (1.0 - K_R)` of `dist_ycbcr`. -/
noncomputable def scale_r_const : ℝ := 0.5 / (1 - k_r_const)

/-- `dist_ycbcr` from src/ycbcr_lookup.rs over the reals. -/
noncomputable def dist_ycbcr (r_diff g_diff b_diff : ℤ) : ℝ :=
  let y := k_r_const * (r_diff : ℝ) + k_g_const * (g_diff : ℝ) + k_b_const * (b_diff : ℝ)
  let c_b := scale_b_const * ((b_diff : ℝ) - y)
  let c_r := scale_r_const * ((r_diff : ℝ) - y)
  Real.sqrt (y * y + c_b * c_b + c_r * c_r)

/-- `dist_rgb8` in `IDiff555` mode (the default build): the table entry at
the query index holds `dist_ycbcr` of the key's decoded differences, so the
read is the composition of decoding with the formula
(`lut_construction_query_roundtrip` and `dist_rgb8_555_eq_table` tie this
functional view to the materialised table). -/
noncomputable def dist_rgb8_555 (p1 p2 : Rgba) : ℝ :=
  dist_ycbcr (r_diff_small (small_index p1 p2)) (g_diff_small (small_index p1 p2))
    (b_diff_small (small_index p1 p2))

/-- `dist_rgb8` in `IDiff888` mode (the `large_lut` build). -/
noncomputable def dist_rgb8_888 (p1 p2 : Rgba) : ℝ :=
  dist_ycbcr (r_diff_large (large_index p1 p2)) (g_diff_large (large_index p1 p2))
    (b_diff_large (large_index p1 p2))

theorem small_index_lt (p1 p2 : Rgba) : small_index p1 p2 < 32768 := by
  unfold small_index
  have h1 := toU8_lt (toI8 (Int.tdiv ((p1.r : ℤ) - (p2.r : ℤ)) 2))
  have h2 := toU8_lt (toI8 (Int.tdiv ((p1.g : ℤ) - (p2.g : ℤ)) 2))
  have h3 := toU8_lt (toI8 (Int.tdiv ((p1.b : ℤ) - (p2.b : ℤ)) 2))
  unfold diff_part
  omega

theorem large_index_lt (p1 p2 : Rgba) : large_index p1 p2 < 16777216 := by
  unfold large_index
  have h1 := toU8_lt (toI8 (Int.tdiv ((p1.r : ℤ) - (p2.r : ℤ)) 2))
  have h2 := toU8_lt (toI8 (Int.tdiv ((p1.g : ℤ) - (p2.g : ℤ)) 2))
  have h3 := toU8_lt (toI8 (Int.tdiv ((p1.b : ℤ) - (p2.b : ℤ)) 2))
  unfold diff_part
  omega

/-- The functional view of the small-table query agrees with the
materialised table built by `new_small`. -/
theorem dist_rgb8_555_eq_table (p1 p2 : Rgba) (dflt : ℝ) :
    dist_rgb8_small dist_ycbcr p1 p2 dflt = dist_rgb8_555 p1 p2 := by
  unfold dist_rgb8_small new_small dist_rgb8_555
  rw [range_map_getD _ _ _ (small_index_lt p1 p2)]

/-- The functional view of the large-table query agrees with the
materialised table built by `new_large`. -/
theorem dist_rgb8_888_eq_table (p1 p2 : Rgba) (dflt : ℝ) :
    dist_rgb8_large dist_ycbcr p1 p2 dflt = dist_rgb8_888 p1 p2 := by
  unfold dist_rgb8_large new_large dist_rgb8_888
  rw [range_map_getD _ _ _ (large_index_lt p1 p2)]

theorem diff_part_self (c : ℕ) : diff_part c c = 0 := by
  unfold diff_part
  rw [sub_self, Int.zero_tdiv]
  decide

theorem dist_ycbcr_zero : dist_ycbcr 0 0 0 = 0 := by
  unfold dist_ycbcr
  norm_num

theorem dist_ycbcr_neg (a b c : ℤ) : dist_ycbcr (-a) (-b) (-c) = dist_ycbcr a b c := by
  unfold dist_ycbcr
  push_cast
  congr 1
  ring

theorem dist_rgb8_555_self (p : Rgba) : dist_rgb8_555 p p = 0 := by
  unfold dist_rgb8_555
  have h : small_index p p = 0 := by
    unfold small_index
    rw [diff_part_self, diff_part_self, diff_part_self]
  rw [h]
  have hrz : r_diff_small 0 = 0 := by decide
  have hgz : g_diff_small 0 = 0 := by decide
  have hbz : b_diff_small 0 = 0 := by decide
  rw [hrz, hgz, hbz, dist_ycbcr_zero]

theorem dist_rgb8_888_self (p : Rgba) : dist_rgb8_888 p p = 0 := by
  unfold dist_rgb8_888
  have h : large_index p p = 0 := by
    unfold large_index
    rw [diff_part_self, diff_part_self, diff_part_self]
  rw [h]
  have hrz : r_diff_large 0 = 0 := by decide
  have hgz : g_diff_large 0 = 0 := by decide
  have hbz : b_diff_large 0 = 0 := by decide
  rw [hrz, hgz, hbz, dist_ycbcr_zero]

theorem toI8_of_toU8 (z : ℤ) : toI8 ((toU8 z : ℕ) : ℤ) = toI8 z := by
  unfold toU8 toI8
  have h0 : (0 : ℤ) ≤ z % 256 := Int.emod_nonneg z (by decide)
  rw [Int.toNat_of_nonneg h0]
  omega

theorem toI8_small {z : ℤ} (h1 : -128 ≤ z) (h2 : z < 128) : toI8 z = z := by
  unfold toI8
  omega

theorem tdiv_two_cases (z : ℤ) : z.tdiv 2 = if 0 ≤ z then z / 2 else -(-z / 2) := by
  by_cases h : 0 ≤ z
  · rw [if_pos h, Int.tdiv_eq_ediv h (by decide)]
  · rw [if_neg h]
    have h2 : (0 : ℤ) ≤ -z := by omega
    have := Int.neg_tdiv z 2
    rw [← Int.neg_neg (Int.tdiv z 2), ← this, Int.tdiv_eq_ediv h2 (by decide)]

theorem tdiv_two_bounds {z : ℤ} (h1 : -255 ≤ z) (h2 : z ≤ 255) :
    -127 ≤ z.tdiv 2 ∧ z.tdiv 2 ≤ 127 := by
  rw [tdiv_two_cases]
  by_cases h : 0 ≤ z
  · rw [if_pos h]
    omega
  · rw [if_neg h]
    omega

theorem tdiv_two_neg (z : ℤ) : (-z).tdiv 2 = -(z.tdiv 2) := Int.neg_tdiv z 2

/-- Counterexample to C7 as stated: in the default 15-bit mode the distance
is not symmetric and is zero on a pair with bit-unequal RGB components. The
pair `(2,0,0)` vs `(0,0,0)` maps to table key 0 (distance 0) in one order
and to a key decoding to a difference of `-16` (strictly positive distance)
in the other. -/
theorem dist_rgb8_555_not_symmetric :
    dist_rgb8_555 ⟨2, 0, 0, 0⟩ ⟨0, 0, 0, 0⟩ ≠
      dist_rgb8_555 ⟨0, 0, 0, 0⟩ ⟨2, 0, 0, 0⟩ ∧
    dist_rgb8_555 ⟨2, 0, 0, 0⟩ ⟨0, 0, 0, 0⟩ = 0 ∧
    (Rgba.mk 2 0 0 0).r ≠ (Rgba.mk 0 0 0 0).r := by
  have hfwd : small_index ⟨2, 0, 0, 0⟩ ⟨0, 0, 0, 0⟩ = 0 := by decide
  have hbwd : small_index ⟨0, 0, 0, 0⟩ ⟨2, 0, 0, 0⟩ = 31744 := by decide
  have hrd : r_diff_small 31744 = -16 := by decide
  have hgd : g_diff_small 31744 = 0 := by decide
  have hbd : b_diff_small 31744 = 0 := by decide
  have hrz : r_diff_small 0 = 0 := by decide
  have hgz : g_diff_small 0 = 0 := by decide
  have hbz : b_diff_small 0 = 0 := by decide
  have hzero : dist_rgb8_555 ⟨2, 0, 0, 0⟩ ⟨0, 0, 0, 0⟩ = 0 := by
    unfold dist_rgb8_555
    rw [hfwd, hrz, hgz, hbz, dist_ycbcr_zero]
  have hpos : 0 < dist_rgb8_555 ⟨0, 0, 0, 0⟩ ⟨2, 0, 0, 0⟩ := by
    unfold dist_rgb8_555
    rw [hbwd, hrd, hgd, hbd]
    unfold dist_ycbcr k_r_const k_g_const k_b_const scale_r_const scale_b_const
    rw [Real.sqrt_pos]
    push_cast
    nlinarith
  refine ⟨?_, hzero, by decide⟩
  rw [hzero]
  exact fun h => absurd (h.symm.le) (not_le.mpr hpos)

/-- C7 amended: the distance of a pixel with itself is zero in both modes
(the "if" direction of the zero property), and in the 24-bit `IDiff888`
mode the distance is symmetric for 8-bit pixels; in the default 15-bit mode
symmetry fails, and in both modes zero distance does not imply bit-equal
RGB: the 15-bit failure is the asymmetry counterexample, and in the 24-bit
mode the pair `(1,0,0)` vs `(0,0,0)` has distance zero with bit-unequal red
(the `i16` division by 2 truncates the odd difference to 0, key 0). -/
theorem dist_rgb8_id_and_888_symm :
    (∀ p : Rgba, dist_rgb8_555 p p = 0 ∧ dist_rgb8_888 p p = 0) ∧
    (∀ p q : Rgba, p.valid → q.valid → dist_rgb8_888 p q = dist_rgb8_888 q p) ∧
    (dist_rgb8_888 ⟨1, 0, 0, 0⟩ ⟨0, 0, 0, 0⟩ = 0 ∧
      (Rgba.mk 1 0 0 0).r ≠ (Rgba.mk 0 0 0 0).r) := by
  have hzero888 : dist_rgb8_888 ⟨1, 0, 0, 0⟩ ⟨0, 0, 0, 0⟩ = 0 := by
    have hidx : large_index ⟨1, 0, 0, 0⟩ ⟨0, 0, 0, 0⟩ = 0 := by decide
    have hrz : r_diff_large 0 = 0 := by decide
    have hgz : g_diff_large 0 = 0 := by decide
    have hbz : b_diff_large 0 = 0 := by decide
    unfold dist_rgb8_888
    rw [hidx, hrz, hgz, hbz, dist_ycbcr_zero]
  have hdec : ∀ p q : Rgba,
      r_diff_large (large_index p q) = toI8 ((diff_part p.r q.r : ℕ) : ℤ) * 2 ∧
      g_diff_large (large_index p q) = toI8 ((diff_part p.g q.g : ℕ) : ℤ) * 2 ∧
      b_diff_large (large_index p q) = toI8 ((diff_part p.b q.b : ℕ) : ℤ) * 2 := by
    intro p q
    have h1 := toU8_lt (toI8 (Int.tdiv ((p.r : ℤ) - (q.r : ℤ)) 2))
    have h2 := toU8_lt (toI8 (Int.tdiv ((p.g : ℤ) - (q.g : ℤ)) 2))
    have h3 := toU8_lt (toI8 (Int.tdiv ((p.b : ℤ) - (q.b : ℤ)) 2))
    unfold r_diff_large g_diff_large b_diff_large large_index
    unfold diff_part at h1 h2 h3 ⊢
    refine ⟨?_, ?_, ?_⟩ <;>
      · congr 2
        omega
  refine ⟨fun p => ⟨dist_rgb8_555_self p, dist_rgb8_888_self p⟩, ?_,
    hzero888, by decide⟩
  intro p q hp hq
  obtain ⟨hpr, hpg, hpb, _⟩ := hp
  obtain ⟨hqr, hqg, hqb, _⟩ := hq
  have key : ∀ a b : ℕ, a < 256 → b < 256 →
      toI8 ((diff_part b a : ℕ) : ℤ) = -toI8 ((diff_part a b : ℕ) : ℤ) := by
    intro a b ha hb
    unfold diff_part
    have hz : (b : ℤ) - a = -((a : ℤ) - b) := by ring
    have hbd := @tdiv_two_bounds ((a : ℤ) - b) (by omega) (by omega)
    have hw : toI8 (((a : ℤ) - b).tdiv 2) = ((a : ℤ) - b).tdiv 2 :=
      toI8_small (by omega) (by omega)
    have hwn : toI8 (-(((a : ℤ) - b).tdiv 2)) = -(((a : ℤ) - b).tdiv 2) :=
      toI8_small (by omega) (by omega)
    rw [hz, tdiv_two_neg, toI8_of_toU8, toI8_of_toU8, hwn, hwn, hw, hw]
  unfold dist_rgb8_888
  obtain ⟨e1, e2, e3⟩ := hdec p q
  obtain ⟨f1, f2, f3⟩ := hdec q p
  rw [e1, e2, e3, f1, f2, f3, key p.r q.r hpr hqr, key p.g q.g hpg hqg,
    key p.b q.b hpb hqb]
  have hneg : ∀ x y z : ℤ,
      dist_ycbcr (-x * 2) (-y * 2) (-z * 2) = dist_ycbcr (x * 2) (y * 2) (z * 2) := by
    intro x y z
    have h1 : (-x * 2 : ℤ) = -(x * 2) := by ring
    have h2 : (-y * 2 : ℤ) = -(y * 2) := by ring
    have h3 : (-z * 2 : ℤ) = -(z * 2) := by ring
    rw [h1, h2, h3, dist_ycbcr_neg]
  exact (hneg _ _ _).symm

/-- Witness for the amended C7 theorem at concrete pixels. -/
theorem dist_rgb8_id_and_888_symm_witness :
    (Rgba.valid ⟨1, 2, 3, 4⟩ ∧ Rgba.valid ⟨250, 6, 7, 8⟩) ∧
    dist_rgb8_555 ⟨1, 2, 3, 4⟩ ⟨1, 2, 3, 4⟩ = 0 ∧
    dist_rgb8_888 ⟨1, 2, 3, 4⟩ ⟨250, 6, 7, 8⟩ =
      dist_rgb8_888 ⟨250, 6, 7, 8⟩ ⟨1, 2, 3, 4⟩ ∧
    dist_rgb8_888 ⟨1, 0, 0, 0⟩ ⟨0, 0, 0, 0⟩ = 0 :=
  ⟨⟨by decide, by decide⟩,
    (dist_rgb8_id_and_888_symm.1 ⟨1, 2, 3, 4⟩).1,
    dist_rgb8_id_and_888_symm.2.1 ⟨1, 2, 3, 4⟩ ⟨250, 6, 7, 8⟩ (by decide) (by decide),
    dist_rgb8_id_and_888_symm.2.2.1⟩

/-! ### Blend classification (src/blend.rs) and configuration (src/config.rs) -/

/-- `BlendType` from src/blend.rs. -/
inductive BlendType
  | none
  | normal
  | dominant
deriving DecidableEq, Repr

/-- `Blend2x2` from src/blend.rs: one `BlendType` per corner. -/
structure Blend2x2 where
  top_left : BlendType
  top_right : BlendType
  bottom_left : BlendType
  bottom_right : BlendType
deriving DecidableEq, Repr

/-- `Blend2x2::default()`: all four corners `None` (also the result of
`clear`). -/
def blendNone : Blend2x2 := ⟨.none, .none, .none, .none⟩

/-- `Blend2x2::blending_needed`: the record differs from the default. -/
def Blend2x2.blending_needed (b : Blend2x2) : Prop := b ≠ blendNone

instance (b : Blend2x2) : Decidable b.blending_needed := by
  unfold Blend2x2.blending_needed
  infer_instance

/-- `Rotation` from src/kernel.rs. -/
inductive Rotation
  | none
  | cw90
  | cw180
  | cw270
deriving DecidableEq, Repr

/-- `Rotation::rotate_ccw` from src/kernel.rs. -/
def Rotation.rotate_ccw : Rotation → Rotation
  | .none => .cw270
  | .cw90 => .none
  | .cw180 => .cw90
  | .cw270 => .cw180

/-- `Blend2x2::rotate` from src/blend.rs. -/
def Blend2x2.rotate (b : Blend2x2) : Rotation → Blend2x2
  | .none => b
  | .cw90 => ⟨b.bottom_left, b.top_left, b.bottom_right, b.top_right⟩
  | .cw180 => ⟨b.bottom_right, b.bottom_left, b.top_right, b.top_left⟩
  | .cw270 => ⟨b.top_right, b.bottom_right, b.top_left, b.bottom_left⟩

/-- `ScalerConfig` from src/config.rs, over the reals. -/
structure ScalerConfig where
  luminance_weight : ℝ
  equal_color_tolerance : ℝ
  center_direction_bias : ℝ
  dominant_direction_threshold : ℝ
  steep_direction_threshold : ℝ

/-- `ScalerConfig::default()`. -/
def default_config : ScalerConfig := ⟨1.0, 30.0, 4.0, 3.6, 2.2⟩

/-! ### The 4x4 kernel and the corner classifier (src/kernel.rs) -/

/-- `Kernel4x4` from src/kernel.rs, with its sixteen pixel fields
`A B C D / E F G H / I J K L / M N O P` (`f` is the centre). -/
structure Kernel4x4 where
  a : Rgba
  b : Rgba
  c : Rgba
  e : Rgba
  f : Rgba
  g : Rgba
  i : Rgba
  j : Rgba
  k : Rgba
  m : Rgba
  n : Rgba
  o : Rgba
  d : Rgba
  h : Rgba
  l : Rgba
  p : Rgba
deriving DecidableEq, Repr

/-- `Kernel4x4::default()`: all pixels zero. -/
def kernelZero : Kernel4x4 :=
  ⟨zeroPixel, zeroPixel, zeroPixel, zeroPixel, zeroPixel, zeroPixel, zeroPixel,
   zeroPixel, zeroPixel, zeroPixel, zeroPixel, zeroPixel, zeroPixel, zeroPixel,
   zeroPixel, zeroPixel⟩

/-- `YCbCrLookup::dist_argb8` from src/ycbcr_lookup.rs on the default small
table (it also models the `dist` dispatch method that the scaler and kernel
call, which is not under src/; spec section 4.1 gives the identical
alpha-weighted formula). The table query reads only the RGB channels, which
is exactly what the `Rgb8::from` conversion in the source preserves. -/
noncomputable def dist_argb8 (p1 p2 : Rgba) : ℝ :=
  let a1 : ℝ := (p1.a : ℝ) / 255
  let a2 : ℝ := (p2.a : ℝ) / 255
  let d := dist_rgb8_555 p1 p2
  if a1 < a2 then a1 * d + 255 * (a2 - a1) else a2 * d + 255 * (a1 - a2)

theorem dist_argb8_alpha0 (p q : Rgba) (hp : p.a = 0) (hq : q.a = 0) :
    dist_argb8 p q = 0 := by
  unfold dist_argb8
  rw [hp, hq]
  norm_num

theorem dist_argb8_trans_opaque (p q : Rgba) (hp : p.a = 0) (hq : q.a = 255) :
    dist_argb8 p q = 255 := by
  unfold dist_argb8
  rw [hp, hq]
  norm_num

theorem dist_argb8_opaque_trans (p q : Rgba) (hp : p.a = 255) (hq : q.a = 0) :
    dist_argb8 p q = 255 := by
  unfold dist_argb8
  rw [hp, hq]
  norm_num

theorem dist_argb8_self (p : Rgba) : dist_argb8 p p = 0 := by
  unfold dist_argb8
  rw [dist_rgb8_555_self]
  norm_num

/-- The directional sum `jg` of `pre_process_corners`:
`d(i,f) + d(f,c) + d(n,k) + d(k,h) + c_ bias * d(j,g)`. -/
noncomputable def jg_sum (cfg : ScalerConfig) (ker : Kernel4x4) : ℝ :=
  dist_argb8 ker.i ker.f + dist_argb8 ker.f ker.c + dist_argb8 ker.n ker.k +
    dist_argb8 ker.k ker.h + cfg.center_direction_bias * dist_argb8 ker.j ker.g

/-- The directional sum `fk` of `pre_process_corners`:
`d(e,j) + d(j,o) + d(b,g) + d(g,l) + c_ bias * d(f,k)`. -/
noncomputable def fk_sum (cfg : ScalerConfig) (ker : Kernel4x4) : ℝ :=
  dist_argb8 ker.e ker.j + dist_argb8 ker.j ker.o + dist_argb8 ker.b ker.g +
    dist_argb8 ker.g ker.l + cfg.center_direction_bias * dist_argb8 ker.f ker.k

/-- `Kernel4x4::pre_process_corners` from src/kernel.rs. -/
noncomputable def pre_process_corners (cfg : ScalerConfig) (ker : Kernel4x4) : Blend2x2 :=
  if ker.f = ker.g ∧ ker.j = ker.k then blendNone
  else if ker.f = ker.j ∧ ker.g = ker.k then blendNone
  else
    let jg := jg_sum cfg ker
    let fk := fk_sum cfg ker
    if jg < fk then
      let blend_mode :=
        if cfg.dominant_direction_threshold * jg < fk then BlendType.dominant
        else BlendType.normal
      { blendNone with
        top_left := if ker.f ≠ ker.g ∧ ker.f ≠ ker.j then blend_mode else .none
        bottom_right := if ker.k ≠ ker.j ∧ ker.k ≠ ker.g then blend_mode else .none }
    else if fk < jg then
      let blend_mode :=
        if cfg.dominant_direction_threshold * fk < jg then BlendType.dominant
        else BlendType.normal
      { blendNone with
        bottom_left := if ker.j ≠ ker.f ∧ ker.j ≠ ker.k then blend_mode else .none
        top_right := if ker.g ≠ ker.f ∧ ker.g ≠ ker.k then blend_mode else .none }
    else blendNone

/-- Branch structure of `pre_process_corners`, shared by the theorems for
C5 and C9 below. -/
theorem pre_process_shape (cfg : ScalerConfig) (ker : Kernel4x4) :
    pre_process_corners cfg ker =
      if (ker.f = ker.g ∧ ker.j = ker.k) ∨ (ker.f = ker.j ∧ ker.g = ker.k) ∨
          jg_sum cfg ker = fk_sum cfg ker then blendNone
      else if jg_sum cfg ker < fk_sum cfg ker then
        ⟨if ker.f ≠ ker.g ∧ ker.f ≠ ker.j then
            (if cfg.dominant_direction_threshold * jg_sum cfg ker < fk_sum cfg ker
              then BlendType.dominant else BlendType.normal)
          else .none,
         .none, .none,
         if ker.k ≠ ker.j ∧ ker.k ≠ ker.g then
            (if cfg.dominant_direction_threshold * jg_sum cfg ker < fk_sum cfg ker
              then BlendType.dominant else BlendType.normal)
          else .none⟩
      else
        ⟨.none,
         if ker.g ≠ ker.f ∧ ker.g ≠ ker.k then
            (if cfg.dominant_direction_threshold * fk_sum cfg ker < jg_sum cfg ker
              then BlendType.dominant else BlendType.normal)
          else .none,
         if ker.j ≠ ker.f ∧ ker.j ≠ ker.k then
            (if cfg.dominant_direction_threshold * fk_sum cfg ker < jg_sum cfg ker
              then BlendType.dominant else BlendType.normal)
          else .none,
         .none⟩ := by
  unfold pre_process_corners
  by_cases h1 : ker.f = ker.g ∧ ker.j = ker.k
  · simp [h1]
  · by_cases h2 : ker.f = ker.j ∧ ker.g = ker.k
    · simp [h1, h2]
    · rcases lt_trichotomy (jg_sum cfg ker) (fk_sum cfg ker) with hlt | heq | hgt
      · have hne : ¬(jg_sum cfg ker = fk_sum cfg ker) := ne_of_lt hlt
        simp only [h1, h2, hlt, hne, if_true, if_false, false_or, or_false,
          if_neg (by tauto : ¬((ker.f = ker.g ∧ ker.j = ker.k) ∨
            (ker.f = ker.j ∧ ker.g = ker.k) ∨ jg_sum cfg ker = fk_sum cfg ker))]
        rfl
      · have hnlt : ¬(jg_sum cfg ker < fk_sum cfg ker) := by rw [heq]; exact lt_irrefl _
        have hngt : ¬(fk_sum cfg ker < jg_sum cfg ker) := by rw [heq]; exact lt_irrefl _
        simp [h1, h2, hnlt, hngt, heq]
      · have hne : ¬(jg_sum cfg ker = fk_sum cfg ker) := ne_of_gt hgt
        have hnlt : ¬(jg_sum cfg ker < fk_sum cfg ker) := not_lt.mpr (le_of_lt hgt)
        simp only [h1, h2, hnlt, hgt, hne, if_true, if_false, false_or, or_false,
          if_neg (by tauto : ¬((ker.f = ker.g ∧ ker.j = ker.k) ∨
            (ker.f = ker.j ∧ ker.g = ker.k) ∨ jg_sum cfg ker = fk_sum cfg ker))]
        rfl


/-- C5: `pre_process_corners` returns all-None on the two pixel-equality
early-outs and when the directional sums tie; when `jg < fk` it assigns
`Dominant` precisely for `dir_thresh * jg < fk` (else `Normal`) to
`top_left` exactly when F differs from both G and J, and to `bottom_right`
exactly when K differs from both J and G, leaving the other diagonal None;
and symmetrically when `fk < jg`. -/
theorem pre_process_corners_formula (cfg : ScalerConfig) (ker : Kernel4x4) :
    pre_process_corners cfg ker =
      if (ker.f = ker.g ∧ ker.j = ker.k) ∨ (ker.f = ker.j ∧ ker.g = ker.k) ∨
          jg_sum cfg ker = fk_sum cfg ker then blendNone
      else if jg_sum cfg ker < fk_sum cfg ker then
        ⟨if ker.f ≠ ker.g ∧ ker.f ≠ ker.j then
            (if cfg.dominant_direction_threshold * jg_sum cfg ker < fk_sum cfg ker
              then BlendType.dominant else BlendType.normal)
          else .none,
         .none, .none,
         if ker.k ≠ ker.j ∧ ker.k ≠ ker.g then
            (if cfg.dominant_direction_threshold * jg_sum cfg ker < fk_sum cfg ker
              then BlendType.dominant else BlendType.normal)
          else .none⟩
      else
        ⟨.none,
         if ker.g ≠ ker.f ∧ ker.g ≠ ker.k then
            (if cfg.dominant_direction_threshold * fk_sum cfg ker < jg_sum cfg ker
              then BlendType.dominant else BlendType.normal)
          else .none,
         if ker.j ≠ ker.f ∧ ker.j ≠ ker.k then
            (if cfg.dominant_direction_threshold * fk_sum cfg ker < jg_sum cfg ker
              then BlendType.dominant else BlendType.normal)
          else .none,
         .none⟩ :=
  pre_process_shape cfg ker

/-- C9: the corner classifier never blends on both diagonals at once: the
result always has `None` on at least one diagonal, two non-None corners
always carry the same `BlendType`, and at most two corners are non-None. -/
theorem pre_process_corners_one_diagonal (cfg : ScalerConfig) (ker : Kernel4x4) :
    ((pre_process_corners cfg ker).top_right = BlendType.none ∧
      (pre_process_corners cfg ker).bottom_left = BlendType.none ∨
     (pre_process_corners cfg ker).top_left = BlendType.none ∧
      (pre_process_corners cfg ker).bottom_right = BlendType.none) ∧
    ((pre_process_corners cfg ker).top_left =
        (pre_process_corners cfg ker).bottom_right ∨
      (pre_process_corners cfg ker).top_left = BlendType.none ∨
      (pre_process_corners cfg ker).bottom_right = BlendType.none) ∧
    ((pre_process_corners cfg ker).top_right =
        (pre_process_corners cfg ker).bottom_left ∨
      (pre_process_corners cfg ker).top_right = BlendType.none ∨
      (pre_process_corners cfg ker).bottom_left = BlendType.none) ∧
    ((if (pre_process_corners cfg ker).top_left = BlendType.none then 0 else 1) +
     (if (pre_process_corners cfg ker).top_right = BlendType.none then 0 else 1) +
     (if (pre_process_corners cfg ker).bottom_left = BlendType.none then 0 else 1) +
     (if (pre_process_corners cfg ker).bottom_right = BlendType.none then 0 else 1)
       : ℕ) ≤ 2 := by
  rw [pre_process_shape cfg ker]
  split_ifs <;> simp_all [blendNone]

/-! ### Out-of-bounds reader (src/oob_reader.rs) and kernel sliding
(src/kernel.rs) -/

/-- A row-pointer read of `OobReaderTransparent::fill_dhlp`: rows outside
`[0, h)` have a null pointer and read as the zero pixel. The column is
checked by the caller. -/
def row_read (src : List Rgba) (w h : ℕ) (row col : ℤ) : Rgba :=
  if 0 ≤ row ∧ row < (h : ℤ) then src.getD (row.toNat * w + col.toNat) zeroPixel
  else zeroPixel

/-- `OobReaderTransparent::fill_dhlp` from src/oob_reader.rs: fill the
rightmost kernel column `D,H,L,P` from rows `y-1, y, y+1, y+2` at column
`x+2`, substituting the zero pixel out of the image. -/
def fill_dhlp (src : List Rgba) (w h : ℕ) (y : ℤ) (ker : Kernel4x4) (x : ℤ) : Kernel4x4 :=
  let xp2 := x + 2
  if 0 ≤ xp2 ∧ xp2 < (w : ℤ) then
    { ker with
      d := row_read src w h (y - 1) xp2
      h := row_read src w h y xp2
      l := row_read src w h (y + 1) xp2
      p := row_read src w h (y + 2) xp2 }
  else
    { ker with d := zeroPixel, h := zeroPixel, l := zeroPixel, p := zeroPixel }

/-- `Kernel4x4::init_row` from src/kernel.rs: four `fill_dhlp` calls at
`x = -4, -3, -2, -1`, copying the rightmost column into the earlier columns
after each of the first three. -/
def init_row (src : List Rgba) (w h : ℕ) (y : ℤ) : Kernel4x4 :=
  let k0 := fill_dhlp src w h y kernelZero (-4)
  let k1 := { k0 with a := k0.d, e := k0.h, i := k0.l, m := k0.p }
  let k2 := fill_dhlp src w h y k1 (-3)
  let k3 := { k2 with b := k2.d, f := k2.h, j := k2.l, n := k2.p }
  let k4 := fill_dhlp src w h y k3 (-2)
  let k5 := { k4 with c := k4.d, g := k4.h, k := k4.l, o := k4.p }
  fill_dhlp src w h y k5 (-1)

/-- `Kernel4x4::next_column` from src/kernel.rs: shift all columns one to
the left, then refill the rightmost column at the current `x`. -/
def next_column (src : List Rgba) (w h : ℕ) (y : ℤ) (ker : Kernel4x4) (x : ℤ) : Kernel4x4 :=
  fill_dhlp src w h y
    { ker with
      a := ker.b, e := ker.f, i := ker.j, m := ker.n
      b := ker.c, f := ker.g, j := ker.k, n := ker.o
      c := ker.d, g := ker.h, k := ker.l, o := ker.p } x

/-! ### Rotated 3x3 view (src/kernel.rs, `RotKernel3x3`)

The 3x3 view reinterprets the first nine kernel fields, so its letters map
to the 4x4 fields as `a b c / d e f / g h i` equal to
`A B C / E F G / I J K`. Each getter below lists the source's rotation
table. -/

/-- `RotKernel3x3::b`: rotations `(b, d, h, f)` of the 3x3 view. -/
def rot3_b : Rotation → Kernel4x4 → Rgba
  | .none, ker => ker.b
  | .cw90, ker => ker.e
  | .cw180, ker => ker.j
  | .cw270, ker => ker.g

/-- `RotKernel3x3::c`: rotations `(c, a, g, i)`. -/
def rot3_c : Rotation → Kernel4x4 → Rgba
  | .none, ker => ker.c
  | .cw90, ker => ker.a
  | .cw180, ker => ker.i
  | .cw270, ker => ker.k

/-- `RotKernel3x3::d`: rotations `(d, h, f, b)`. -/
def rot3_d : Rotation → Kernel4x4 → Rgba
  | .none, ker => ker.e
  | .cw90, ker => ker.j
  | .cw180, ker => ker.g
  | .cw270, ker => ker.b

/-- `RotKernel3x3::e`: the centre, invariant under rotation. -/
def rot3_e : Rotation → Kernel4x4 → Rgba
  | _, ker => ker.f

/-- `RotKernel3x3::f`: rotations `(f, b, d, h)`. -/
def rot3_f : Rotation → Kernel4x4 → Rgba
  | .none, ker => ker.g
  | .cw90, ker => ker.b
  | .cw180, ker => ker.e
  | .cw270, ker => ker.j

/-- `RotKernel3x3::g`: rotations `(g, i, c, a)`. -/
def rot3_g : Rotation → Kernel4x4 → Rgba
  | .none, ker => ker.i
  | .cw90, ker => ker.k
  | .cw180, ker => ker.c
  | .cw270, ker => ker.a

/-- `RotKernel3x3::h`: rotations `(h, f, b, d)`. -/
def rot3_h : Rotation → Kernel4x4 → Rgba
  | .none, ker => ker.j
  | .cw90, ker => ker.g
  | .cw180, ker => ker.b
  | .cw270, ker => ker.e

/-- `RotKernel3x3::i`: rotations `(i, c, a, g)`. -/
def rot3_i : Rotation → Kernel4x4 → Rgba
  | .none, ker => ker.k
  | .cw90, ker => ker.c
  | .cw180, ker => ker.a
  | .cw270, ker => ker.i

/-! ### Output matrix (src/matrix.rs) -/

/-- Rank of a rotation, the discriminant of the Rust `#[repr(u8)]` enum. -/
def Rotation.rank : Rotation → ℕ
  | .none => 0
  | .cw90 => 1
  | .cw180 => 2
  | .cw270 => 3

/-- One recursion step of `rotate_index` from src/matrix.rs:
`(i, j) ↦ (n - 1 - j, i)`. -/
def rot_step (n : ℕ) (ij : ℕ × ℕ) : ℕ × ℕ := (n - 1 - ij.2, ij.1)

/-- `rotate_index` from src/matrix.rs: the recursion
`rotate_index(i, j, n, rot) = if rot.is_none() { (i, j) } else
rotate_index(n - 1 - j, i, n, rot.rotate_ccw())` peels one step per
`rotate_ccw`, so it is the step applied `rank` times (unrolled here so the
definition reduces definitionally). -/
def rotate_index (i j n : ℕ) (rot : Rotation) : ℕ × ℕ :=
  match rot with
  | .none => (i, j)
  | .cw90 => rot_step n (i, j)
  | .cw180 => rot_step n (rot_step n (i, j))
  | .cw270 => rot_step n (rot_step n (rot_step n (i, j)))

/-- Destination index of `OutputMatrix::rotated_ref::<X, Y>`: the rotated
cell `(i, j)` lives at `i + j * out_width` from the matrix base. -/
def op_index (S : ℕ) (R : Rotation) (w base x y : ℕ) : ℕ :=
  let ij := rotate_index x y S R
  base + ij.1 + ij.2 * w

/-! ### Per-scale blend patterns (src/scaler.rs)

Each `Scaler<N>` method is a fixed sequence of `blend!(m/n, out[x, y], col)`
and `set!(out[x, y], col)` writes; they are transcribed as operation lists
in source order. -/

/-- One write of a blend pattern: `blend!(m/n, out[x, y], col)` or
`set!(out[x, y], col)`. -/
inductive BlendOp
  | grad (m n x y : ℕ)
  | set (x y : ℕ)
deriving DecidableEq, Repr

/-- `blend_line_shallow` for each scale 2-6. -/
def blend_line_shallow_ops : ℕ → List BlendOp
  | 2 => [.grad 1 4 1 0, .grad 3 4 1 1]
  | 3 => [.grad 1 4 2 0, .grad 1 4 1 2, .grad 3 4 2 1, .set 2 2]
  | 4 => [.grad 1 4 3 0, .grad 1 4 2 2, .grad 3 4 3 1, .grad 3 4 2 3,
          .set 3 2, .set 3 3]
  | 5 => [.grad 1 4 4 0, .grad 1 4 3 2, .grad 1 4 2 4, .grad 3 4 4 1,
          .grad 3 4 3 3, .set 4 2, .set 4 3, .set 4 4, .set 3 4]
  | 6 => [.grad 1 4 5 0, .grad 1 4 4 2, .grad 1 4 3 4, .grad 3 4 5 1,
          .grad 3 4 4 3, .grad 3 4 3 5, .set 5 2, .set 5 3, .set 5 4,
          .set 5 5, .set 4 4, .set 4 5]
  | _ => []

/-- `blend_line_steep` for each scale 2-6. -/
def blend_line_steep_ops : ℕ → List BlendOp
  | 2 => [.grad 1 4 0 1, .grad 3 4 1 1]
  | 3 => [.grad 1 4 0 2, .grad 1 4 2 1, .grad 3 4 1 2, .set 2 2]
  | 4 => [.grad 1 4 0 3, .grad 1 4 2 2, .grad 3 4 1 3, .grad 3 4 3 2,
          .set 2 3, .set 3 3]
  | 5 => [.grad 1 4 0 4, .grad 1 4 2 3, .grad 1 4 4 2, .grad 3 4 1 4,
          .grad 3 4 3 3, .set 2 4, .set 3 4, .set 4 4, .set 4 3]
  | 6 => [.grad 1 4 0 5, .grad 1 4 2 4, .grad 1 4 4 3, .grad 3 4 1 5,
          .grad 3 4 3 4, .grad 3 4 5 3, .set 2 5, .set 3 5, .set 4 5,
          .set 5 5, .set 4 4, .set 5 4]
  | _ => []

/-- `blend_line_steep_and_shallow` for each scale 2-6. -/
def blend_line_steep_and_shallow_ops : ℕ → List BlendOp
  | 2 => [.grad 1 4 1 0, .grad 1 4 0 1, .grad 5 6 1 1]
  | 3 => [.grad 1 4 2 0, .grad 1 4 0 2, .grad 3 4 2 1, .grad 3 4 1 2,
          .set 2 2]
  | 4 => [.grad 3 4 3 1, .grad 3 4 1 3, .grad 1 4 3 0, .grad 1 4 0 3,
          .grad 1 3 2 2, .set 3 3, .set 3 2, .set 2 3]
  | 5 => [.grad 1 4 0 4, .grad 1 4 2 3, .grad 3 4 1 4, .grad 1 4 4 0,
          .grad 1 4 3 2, .grad 3 4 4 1, .grad 2 3 3 3, .set 2 4, .set 3 4,
          .set 4 4, .set 4 2, .set 4 3]
  | 6 => [.grad 1 4 0 5, .grad 1 4 2 4, .grad 3 4 1 5, .grad 3 4 3 4,
          .grad 1 4 5 0, .grad 1 4 4 2, .grad 3 4 5 1, .grad 3 4 4 3,
          .set 2 5, .set 3 5, .set 4 5, .set 5 5, .set 4 4, .set 5 4,
          .set 5 2, .set 5 3]
  | _ => []

/-- `blend_line_diagonal` for each scale 2-6. -/
def blend_line_diagonal_ops : ℕ → List BlendOp
  | 2 => [.grad 1 2 1 1]
  | 3 => [.grad 1 8 1 2, .grad 1 8 2 1, .grad 7 8 2 2]
  | 4 => [.grad 1 2 3 2, .grad 1 2 2 3, .set 3 3]
  | 5 => [.grad 1 8 4 2, .grad 1 8 3 3, .grad 1 8 2 4, .grad 7 8 4 3,
          .grad 7 8 3 4, .set 4 4]
  | 6 => [.grad 1 2 5 3, .grad 1 2 4 4, .grad 1 2 3 5, .set 4 5, .set 5 5,
          .set 5 4]
  | _ => []

/-- `blend_corner` for each scale 2-6. -/
def blend_corner_ops : ℕ → List BlendOp
  | 2 => [.grad 21 100 1 1]
  | 3 => [.grad 45 100 2 2]
  | 4 => [.grad 68 100 3 3, .grad 9 100 3 2, .grad 9 100 2 3]
  | 5 => [.grad 86 100 4 4, .grad 23 100 4 3, .grad 23 100 3 4]
  | 6 => [.grad 97 100 5 5, .grad 42 100 4 5, .grad 42 100 5 4,
          .grad 6 100 5 3, .grad 6 100 3 5]
  | _ => []

/-- Execution of one pattern write on the destination: `blend!` applies
`alpha_grad` (gradient with `front = col`, `back` the current cell), `set!`
overwrites the cell. -/
def apply_blend_op (S : ℕ) (R : Rotation) (base w : ℕ) (col : Rgba)
    (dest : List Rgba) : BlendOp → List Rgba
  | .grad m n x y =>
      dest.set (op_index S R w base x y)
        (gradient_rgba m n col (dest.getD (op_index S R w base x y) zeroPixel))
  | .set x y => dest.set (op_index S R w base x y) col

/-- Execution of a whole pattern, in source order. -/
def apply_blend_ops (S : ℕ) (R : Rotation) (base w : ℕ) (col : Rgba)
    (dest : List Rgba) (ops : List BlendOp) : List Rgba :=
  ops.foldl (apply_blend_op S R base w col) dest

/-- `fill_block` from src/scaler.rs: set every cell of a `bw` by `bh` block
to `v`, rows `row_len` apart. -/
def fill_block (dest : List Rgba) (base row_len : ℕ) (v : Rgba) (bw bh : ℕ) :
    List Rgba :=
  (List.range bh).foldl
    (fun d jj => (List.range bw).foldl (fun d2 ii => d2.set (base + jj * row_len + ii) v) d)
    dest

/-! ### The blender and the engine (src/scaler.rs)

Branch conditions compare real-valued distances, so the engine definitions
are noncomputable. -/

/-- `Scaler::blend_pixel` from src/scaler.rs, writing through the rotated
output matrix into `dest` at `base` with row width `w`. The `'a:` labelled
block of the source (early `break 'a false` exits) is the equivalent
disjunction/conjunction below: `eq` is `dist < tolerance`, `neq` is
`dist >= tolerance`. -/
noncomputable def blend_pixel (S : ℕ) (R : Rotation) (ker : Kernel4x4)
    (dest : List Rgba) (base w : ℕ) (blend_info : Blend2x2)
    (cfg : ScalerConfig) : List Rgba :=
  let blend := blend_info.rotate R
  if blend.bottom_right = BlendType.none then dest
  else
    let tol := cfg.equal_color_tolerance
    let do_line_blend : Prop :=
      blend.bottom_right = BlendType.dominant ∨
      (¬(blend.top_right ≠ BlendType.none ∧
          dist_argb8 (rot3_e R ker) (rot3_g R ker) ≥ tol) ∧
       ¬(blend.bottom_left ≠ BlendType.none ∧
          dist_argb8 (rot3_e R ker) (rot3_c R ker) ≥ tol) ∧
       ¬(dist_argb8 (rot3_e R ker) (rot3_i R ker) ≥ tol ∧
          dist_argb8 (rot3_g R ker) (rot3_h R ker) < tol ∧
          dist_argb8 (rot3_h R ker) (rot3_i R ker) < tol ∧
          dist_argb8 (rot3_i R ker) (rot3_f R ker) < tol ∧
          dist_argb8 (rot3_f R ker) (rot3_c R ker) < tol))
    let px :=
      if dist_argb8 (rot3_e R ker) (rot3_f R ker) ≤
          dist_argb8 (rot3_e R ker) (rot3_h R ker) then rot3_f R ker
      else rot3_h R ker
    if do_line_blend then
      let fg := dist_argb8 (rot3_f R ker) (rot3_g R ker)
      let hc := dist_argb8 (rot3_h R ker) (rot3_c R ker)
      let shallow_line : Prop := cfg.steep_direction_threshold * fg ≤ hc ∧
        dist_argb8 (rot3_e R ker) (rot3_g R ker) ≥ tol ∧
        dist_argb8 (rot3_d R ker) (rot3_g R ker) ≥ tol
      let steep_line : Prop := cfg.steep_direction_threshold * hc ≤ fg ∧
        dist_argb8 (rot3_e R ker) (rot3_c R ker) ≥ tol ∧
        dist_argb8 (rot3_b R ker) (rot3_c R ker) ≥ tol
      if shallow_line then
        if steep_line then
          apply_blend_ops S R base w px dest (blend_line_steep_and_shallow_ops S)
        else apply_blend_ops S R base w px dest (blend_line_shallow_ops S)
      else
        if steep_line then apply_blend_ops S R base w px dest (blend_line_steep_ops S)
        else apply_blend_ops S R base w px dest (blend_line_diagonal_ops S)
    else apply_blend_ops S R base w px dest (blend_corner_ops S)

/-- One iteration of the row-ahead pre-pass loop in `scale_image`
(`for x in 0..src_width` of the initialisation block). -/
noncomputable def pre_pass_step (src : List Rgba) (w h : ℕ) (cfg : ScalerConfig)
    (y : ℤ) (st : Kernel4x4 × List Blend2x2) (x : ℕ) : Kernel4x4 × List Blend2x2 :=
  let ker := next_column src w h y st.1 (x : ℤ)
  let res := pre_process_corners cfg ker
  let buf := st.2.set x { st.2.getD x blendNone with top_right := res.bottom_left }
  let buf :=
    if x + 1 < w then buf.set (x + 1) { blendNone with top_left := res.bottom_right }
    else buf
  (ker, buf)

/-- The row-ahead pre-pass of `scale_image`, run with `y = y_first - 1` on a
fresh all-default buffer of width `w`. -/
noncomputable def pre_pass (src : List Rgba) (w h : ℕ) (cfg : ScalerConfig)
    (y : ℤ) : List Blend2x2 :=
  let ker0 := init_row src w h y
  let res0 := pre_process_corners cfg ker0
  let buf := (List.replicate w blendNone).set 0 { blendNone with top_left := res0.bottom_right }
  ((List.range w).foldl (pre_pass_step src w h cfg y) (ker0, buf)).2

/-- Loop state of the main per-row loop of `scale_image`: the sliding
kernel, the in-flight row-ahead record `blend_xy1`, the row-ahead buffer and
the destination. -/
structure RowState where
  ker : Kernel4x4
  bxy1 : Blend2x2
  buf : List Blend2x2
  dest : List Rgba

/-- One iteration of the inner `for x in 0..src_width` loop of
`scale_image`'s main loop at row `y`. -/
noncomputable def row_step (S : ℕ) (src : List Rgba) (w h : ℕ)
    (cfg : ScalerConfig) (y : ℕ) (st : RowState) (x : ℕ) : RowState :=
  let ker := next_column src w h (y : ℤ) st.ker (x : ℤ)
  let res := pre_process_corners cfg ker
  let blend_xy := { st.buf.getD x blendNone with bottom_right := res.top_left }
  let bxy1 := { st.bxy1 with top_right := res.bottom_left }
  let buf := st.buf.set x bxy1
  let bxy1' :=
    if x + 1 < w then { blendNone with top_left := res.bottom_right } else bxy1
  let buf' :=
    if x + 1 < w then
      buf.set (x + 1) { buf.getD (x + 1) blendNone with bottom_left := res.top_right }
    else buf
  let base := y * S * (w * S) + x * S
  let dest := fill_block st.dest base (w * S) ker.f S S
  let dest :=
    if blend_xy.blending_needed then
      blend_pixel S Rotation.cw270 ker
        (blend_pixel S Rotation.cw180 ker
          (blend_pixel S Rotation.cw90 ker
            (blend_pixel S Rotation.none ker dest base (w * S) blend_xy cfg)
            base (w * S) blend_xy cfg)
          base (w * S) blend_xy cfg)
        base (w * S) blend_xy cfg
    else dest
  ⟨ker, bxy1', buf', dest⟩

/-- One full row `y` of `scale_image`'s main loop, transforming the
row-ahead buffer and the destination. -/
noncomputable def process_row (S : ℕ) (src : List Rgba) (w h : ℕ)
    (cfg : ScalerConfig) (st : List Blend2x2 × List Rgba) (y : ℕ) :
    List Blend2x2 × List Rgba :=
  let ker0 := init_row src w h (y : ℤ)
  let res0 := pre_process_corners cfg ker0
  let bxy1 := { blendNone with top_left := res0.bottom_right }
  let buf := st.1.set 0 { st.1.getD 0 blendNone with top_left := res0.top_right }
  let final := (List.range w).foldl (row_step S src w h cfg y) ⟨ker0, bxy1, buf, st.2⟩
  (final.buf, final.dest)

/-- `Scaler::scale_image` from src/scaler.rs for scale factor `S`, over the
row range `[y_start, y_end)` (clamped to the image height exactly as the
source's `max`/`min` do). -/
noncomputable def scale_image (S : ℕ) (src : List Rgba) (dest : List Rgba)
    (w h : ℕ) (cfg : ScalerConfig) (y_start y_end : ℕ) : List Rgba :=
  let y_first := y_start
  let y_last := min y_end h
  let buf := pre_pass src w h cfg ((y_first : ℤ) - 1)
  ((List.range' y_first (y_last - y_first)).foldl (process_row S src w h cfg)
    (buf, dest)).2

/-! ### The public entry point (src/lib.rs) -/

/-- Failure of a `scale_rgba` call. The source has no error type: invalid
inputs hit `assert!`/`assert_eq!` and panic (`assertViolation` here); the
`invalidInput` alternative exists only so the spec's claimed behaviour is
expressible. -/
inductive ScaleFailure
  | assertViolation
  | invalidInput
deriving DecidableEq, Repr

/-- Reinterpretation of the flat RGBA byte buffer as pixels
(`source.align_to::<P>()`). -/
def bytes_to_pixels : List ℕ → List Rgba
  | r :: g :: b :: a :: rest => ⟨r, g, b, a⟩ :: bytes_to_pixels rest
  | _ => []

/-- Reinterpretation of the pixel buffer as flat RGBA bytes
(`Vec::from_raw_parts` at the end of `scale`). -/
def pixels_to_bytes : List Rgba → List ℕ
  | [] => []
  | p :: rest => p.r :: p.g :: p.b :: p.a :: pixels_to_bytes rest

/-- `scale_rgba`/`scale` from src/lib.rs: empty dimensions return an empty
buffer before any validation; a length mismatch or an out-of-range factor
fails the corresponding `assert` (a panic); factor 1 copies the source;
otherwise the per-factor `scale_image` runs on a zero-initialised
destination over `0..src_height`. -/
noncomputable def scale_rgba (source : List ℕ) (src_width src_height factor : ℕ) :
    Except ScaleFailure (List ℕ) :=
  if src_width = 0 ∨ src_height = 0 then .ok []
  else if source.length ≠ src_width * src_height * 4 then .error .assertViolation
  else if ¬0 < factor then .error .assertViolation
  else if ¬factor ≤ 6 then .error .assertViolation
  else
    let src := bytes_to_pixels source
    if factor = 1 then .ok (pixels_to_bytes src)
    else
      .ok (pixels_to_bytes
        (scale_image factor src
          (List.replicate (src_width * src_height * factor * factor) zeroPixel)
          src_width src_height default_config 0 src_height))

/-- Counterexample to C2 as stated: an out-of-range factor does not produce
an `InvalidInput` error value — the call dies on an `assert!` (a panic), as
the function's own doc comment says. -/
theorem scale_rgba_panics_on_bad_factor :
    scale_rgba [0, 0, 0, 0] 1 1 7 = Except.error ScaleFailure.assertViolation ∧
    scale_rgba [0, 0, 0, 0] 1 1 7 ≠ Except.error ScaleFailure.invalidInput := by
  have h : scale_rgba [0, 0, 0, 0] 1 1 7 = Except.error ScaleFailure.assertViolation := by
    unfold scale_rgba
    norm_num
  exact ⟨h, by rw [h]; exact fun hc => by injection hc with hc2; cases hc2⟩

/-- C2 amended: a zero dimension short-circuits to an empty buffer with no
error (before any validation); for non-zero dimensions, a byte-length
mismatch or a factor outside `{1..6}` makes the call panic on an assertion —
no `InvalidInput` error value is ever returned. -/
theorem scale_rgba_validation (source : List ℕ) (w h factor : ℕ) :
    (w = 0 ∨ h = 0 → scale_rgba source w h factor = Except.ok []) ∧
    (w ≠ 0 → h ≠ 0 → source.length ≠ w * h * 4 ∨ factor = 0 ∨ 6 < factor →
      scale_rgba source w h factor = Except.error ScaleFailure.assertViolation) := by
  constructor
  · intro hz
    unfold scale_rgba
    rw [if_pos hz]
  · intro hw hh hbad
    unfold scale_rgba
    rw [if_neg (by tauto)]
    by_cases hlen : source.length ≠ w * h * 4
    · rw [if_pos hlen]
    · rw [if_neg hlen]
      have hfac : factor = 0 ∨ 6 < factor := by tauto
      by_cases h0 : factor = 0
      · rw [if_pos (by omega)]
      · rw [if_neg (by omega), if_pos (by omega)]

/-- Witness for `scale_rgba_validation` at concrete inputs. -/
theorem scale_rgba_validation_witness :
    ((0 = 0 ∨ 3 = 0) ∧ (1 ≠ 0 ∧ 1 ≠ 0 ∧
      (([] : List ℕ).length ≠ 1 * 1 * 4 ∨ (9 : ℕ) = 0 ∨ 6 < 9))) ∧
    scale_rgba [1, 2, 3] 0 3 2 = Except.ok [] ∧
    scale_rgba [] 1 1 9 = Except.error ScaleFailure.assertViolation :=
  ⟨⟨by decide, by decide, by decide, by decide⟩,
    (scale_rgba_validation [1, 2, 3] 0 3 2).1 (by decide),
    (scale_rgba_validation [] 1 1 9).2 (by decide) (by decide) (by decide)⟩


/-- The opaque red pixel of the end-to-end scenario. -/
def redPix : Rgba := ⟨255, 0, 0, 255⟩

/-- Gradient of the transparent corner blend into red: RGB kept, alpha
reduced to 201. -/
def redFaded : Rgba := ⟨255, 0, 0, 201⟩

theorem red_K0 : init_row [redPix] 1 1 (-1) = { kernelZero with k := redPix } := by
  decide

theorem red_jg_K0 : jg_sum default_config { kernelZero with k := redPix } = 510 := by
  norm_num [jg_sum, kernelZero, zeroPixel, redPix, dist_argb8_alpha0,
    dist_argb8_trans_opaque, dist_argb8_opaque_trans, dist_argb8_self,
    default_config]

theorem red_fk_K0 : fk_sum default_config { kernelZero with k := redPix } = 1020 := by
  norm_num [fk_sum, kernelZero, zeroPixel, redPix, dist_argb8_alpha0,
    dist_argb8_trans_opaque, dist_argb8_opaque_trans, dist_argb8_self,
    default_config]

theorem red_R0 : pre_process_corners default_config { kernelZero with k := redPix } =
    { blendNone with bottom_right := BlendType.normal } := by
  rw [pre_process_shape, red_jg_K0, red_fk_K0]
  norm_num [kernelZero, zeroPixel, redPix, blendNone, default_config]

theorem red_K1 :
    next_column [redPix] 1 1 (-1) { kernelZero with k := redPix } 0 =
      { kernelZero with j := redPix } := by
  decide

theorem red_jg_K1 : jg_sum default_config { kernelZero with j := redPix } = 1020 := by
  norm_num [jg_sum, kernelZero, zeroPixel, redPix, dist_argb8_alpha0,
    dist_argb8_trans_opaque, dist_argb8_opaque_trans, dist_argb8_self,
    default_config]

theorem red_fk_K1 : fk_sum default_config { kernelZero with j := redPix } = 510 := by
  norm_num [fk_sum, kernelZero, zeroPixel, redPix, dist_argb8_alpha0,
    dist_argb8_trans_opaque, dist_argb8_opaque_trans, dist_argb8_self,
    default_config]

theorem red_R1 : pre_process_corners default_config { kernelZero with j := redPix } =
    { blendNone with bottom_left := BlendType.normal } := by
  rw [pre_process_shape, red_jg_K1, red_fk_K1]
  norm_num [kernelZero, zeroPixel, redPix, blendNone, default_config]

theorem red_PP : pre_pass [redPix] 1 1 default_config (-1) =
    [⟨BlendType.normal, BlendType.normal, BlendType.none, BlendType.none⟩] := by
  simp only [pre_pass, pre_pass_step, red_K0, red_R0,
    (by decide : List.range 1 = [0]), List.foldl_cons, List.foldl_nil,
    Nat.cast_zero, red_K1, red_R1]
  decide

theorem red_K2 : init_row [redPix] 1 1 0 = { kernelZero with g := redPix } := by
  decide

theorem red_jg_K2 : jg_sum default_config { kernelZero with g := redPix } = 1020 := by
  norm_num [jg_sum, kernelZero, zeroPixel, redPix, dist_argb8_alpha0,
    dist_argb8_trans_opaque, dist_argb8_opaque_trans, dist_argb8_self,
    default_config]

theorem red_fk_K2 : fk_sum default_config { kernelZero with g := redPix } = 510 := by
  norm_num [fk_sum, kernelZero, zeroPixel, redPix, dist_argb8_alpha0,
    dist_argb8_trans_opaque, dist_argb8_opaque_trans, dist_argb8_self,
    default_config]

theorem red_R2 : pre_process_corners default_config { kernelZero with g := redPix } =
    { blendNone with top_right := BlendType.normal } := by
  rw [pre_process_shape, red_jg_K2, red_fk_K2]
  norm_num [kernelZero, zeroPixel, redPix, blendNone, default_config]

theorem red_K3 :
    next_column [redPix] 1 1 0 { kernelZero with g := redPix } 0 =
      { kernelZero with f := redPix } := by
  decide

theorem red_jg_K3 : jg_sum default_config { kernelZero with f := redPix } = 510 := by
  norm_num [jg_sum, kernelZero, zeroPixel, redPix, dist_argb8_alpha0,
    dist_argb8_trans_opaque, dist_argb8_opaque_trans, dist_argb8_self,
    default_config]

theorem red_fk_K3 : fk_sum default_config { kernelZero with f := redPix } = 1020 := by
  norm_num [fk_sum, kernelZero, zeroPixel, redPix, dist_argb8_alpha0,
    dist_argb8_trans_opaque, dist_argb8_opaque_trans, dist_argb8_self,
    default_config]

theorem red_R3 : pre_process_corners default_config { kernelZero with f := redPix } =
    { blendNone with top_left := BlendType.normal } := by
  rw [pre_process_shape, red_jg_K3, red_fk_K3]
  norm_num [kernelZero, zeroPixel, redPix, blendNone, default_config]

theorem red_B0 :
    blend_pixel 2 Rotation.none { kernelZero with f := redPix }
      [redPix, redPix, redPix, redPix] 0 2
      ⟨BlendType.normal, BlendType.normal, BlendType.none, BlendType.normal⟩
      default_config = [redPix, redPix, redPix, redFaded] := by
  unfold blend_pixel
  norm_num [Blend2x2.rotate, rot3_b, rot3_c, rot3_d, rot3_e, rot3_f, rot3_g,
    rot3_h, rot3_i, kernelZero, zeroPixel, redPix, dist_argb8_alpha0,
    dist_argb8_trans_opaque, dist_argb8_opaque_trans, dist_argb8_self,
    default_config]
  rw [if_neg (by decide : ¬(BlendType.normal = BlendType.none)),
    if_neg (by decide : ¬(BlendType.normal = BlendType.dominant))]
  decide


theorem red_B90 :
    blend_pixel 2 Rotation.cw90 { kernelZero with f := redPix }
      [redPix, redPix, redPix, redFaded] 0 2
      ⟨BlendType.normal, BlendType.normal, BlendType.none, BlendType.normal⟩
      default_config = [redPix, redPix, redFaded, redFaded] := by
  unfold blend_pixel
  norm_num [Blend2x2.rotate, rot3_b, rot3_c, rot3_d, rot3_e, rot3_f, rot3_g,
    rot3_h, rot3_i, kernelZero, zeroPixel, redPix, dist_argb8_alpha0,
    dist_argb8_trans_opaque, dist_argb8_opaque_trans, dist_argb8_self,
    default_config]
  rw [if_neg (by decide : ¬(BlendType.normal = BlendType.none)),
    if_neg (by decide : ¬(BlendType.normal = BlendType.dominant))]
  decide

theorem red_B180 :
    blend_pixel 2 Rotation.cw180 { kernelZero with f := redPix }
      [redPix, redPix, redFaded, redFaded] 0 2
      ⟨BlendType.normal, BlendType.normal, BlendType.none, BlendType.normal⟩
      default_config = [redFaded, redPix, redFaded, redFaded] := by
  unfold blend_pixel
  norm_num [Blend2x2.rotate, rot3_b, rot3_c, rot3_d, rot3_e, rot3_f, rot3_g,
    rot3_h, rot3_i, kernelZero, zeroPixel, redPix, dist_argb8_alpha0,
    dist_argb8_trans_opaque, dist_argb8_opaque_trans, dist_argb8_self,
    default_config]
  rw [if_neg (by decide : ¬(BlendType.normal = BlendType.none)),
    if_neg (by decide : ¬(BlendType.normal = BlendType.dominant))]
  decide

theorem red_B270 :
    blend_pixel 2 Rotation.cw270 { kernelZero with f := redPix }
      [redFaded, redPix, redFaded, redFaded] 0 2
      ⟨BlendType.normal, BlendType.normal, BlendType.none, BlendType.normal⟩
      default_config = [redFaded, redPix, redFaded, redFaded] := by
  unfold blend_pixel
  norm_num [Blend2x2.rotate, rot3_b, rot3_c, rot3_d, rot3_e, rot3_f, rot3_g,
    rot3_h, rot3_i, kernelZero, zeroPixel, redPix, dist_argb8_alpha0,
    dist_argb8_trans_opaque, dist_argb8_opaque_trans, dist_argb8_self,
    default_config]

theorem red_fill :
    fill_block (List.replicate 4 zeroPixel) 0 2 redPix 2 2 =
      [redPix, redPix, redPix, redPix] := by
  decide

theorem red_row :
    process_row 2 [redPix] 1 1 default_config
      ([⟨BlendType.normal, BlendType.normal, BlendType.none, BlendType.none⟩],
        List.replicate 4 zeroPixel) 0 =
      ([blendNone], [redFaded, redPix, redFaded, redFaded]) := by
  simp only [process_row, row_step, red_K2, red_R2,
    (by decide : List.range 1 = [0]), List.foldl_cons, List.foldl_nil,
    Nat.cast_zero, red_K3, red_R3, List.getD_cons_zero]
  norm_num [blendNone]
  rw [red_fill, red_B0, red_B90, red_B180, red_B270]
  decide


theorem red_scale :
    scale_image 2 [redPix] (List.replicate 4 zeroPixel) 1 1 default_config 0 1 =
      [redFaded, redPix, redFaded, redFaded] := by
  simp only [scale_image, Nat.cast_zero]
  rw [show ((0 : ℤ) - 1) = -1 by norm_num, red_PP,
    show List.range' 0 (min 1 1 - 0) = [0] from by decide,
    List.foldl_cons, List.foldl_nil, red_row]

theorem red_scale_rgba :
    scale_rgba [255, 0, 0, 255] 1 1 2 =
      Except.ok [255, 0, 0, 201, 255, 0, 0, 255, 255, 0, 0, 201, 255, 0, 0, 201] := by
  unfold scale_rgba
  norm_num
  rw [show bytes_to_pixels [255, 0, 0, 255] = [redPix] from by decide, red_scale]
  decide


theorem pre_process_alpha0 (cfg : ScalerConfig) (ker : Kernel4x4)
    (hi : ker.i.a = 0) (hf : ker.f.a = 0) (hc : ker.c.a = 0) (hn : ker.n.a = 0)
    (hk : ker.k.a = 0) (hh : ker.h.a = 0) (hj : ker.j.a = 0) (hg : ker.g.a = 0)
    (he : ker.e.a = 0) (ho : ker.o.a = 0) (hb : ker.b.a = 0) (hl : ker.l.a = 0) :
    pre_process_corners cfg ker = blendNone := by
  have hjg : jg_sum cfg ker = 0 := by
    unfold jg_sum
    rw [dist_argb8_alpha0 _ _ hi hf, dist_argb8_alpha0 _ _ hf hc,
      dist_argb8_alpha0 _ _ hn hk, dist_argb8_alpha0 _ _ hk hh,
      dist_argb8_alpha0 _ _ hj hg]
    ring
  have hfk : fk_sum cfg ker = 0 := by
    unfold fk_sum
    rw [dist_argb8_alpha0 _ _ he hj, dist_argb8_alpha0 _ _ hj ho,
      dist_argb8_alpha0 _ _ hb hg, dist_argb8_alpha0 _ _ hg hl,
      dist_argb8_alpha0 _ _ hf hk]
    ring
  rw [pre_process_shape, hjg, hfk, if_pos (Or.inr (Or.inr rfl))]

theorem tp_K0 (r g b : ℕ) : init_row [⟨r, g, b, 0⟩] 1 1 (-1) =
    { kernelZero with k := ⟨r, g, b, 0⟩ } := by
  norm_num [init_row, fill_dhlp, row_read, kernelZero, zeroPixel]

theorem tp_R0 (r g b : ℕ) :
    pre_process_corners default_config { kernelZero with k := ⟨r, g, b, 0⟩ } =
      blendNone :=
  pre_process_alpha0 _ _ (by simp [kernelZero, zeroPixel]) (by simp [kernelZero, zeroPixel])
    (by simp [kernelZero, zeroPixel]) (by simp [kernelZero, zeroPixel]) rfl
    (by simp [kernelZero, zeroPixel]) (by simp [kernelZero, zeroPixel])
    (by simp [kernelZero, zeroPixel]) (by simp [kernelZero, zeroPixel])
    (by simp [kernelZero, zeroPixel]) (by simp [kernelZero, zeroPixel])
    (by simp [kernelZero, zeroPixel])

theorem tp_K1 (r g b : ℕ) :
    next_column [⟨r, g, b, 0⟩] 1 1 (-1) { kernelZero with k := ⟨r, g, b, 0⟩ } 0 =
      { kernelZero with j := ⟨r, g, b, 0⟩ } := by
  norm_num [next_column, fill_dhlp, row_read, kernelZero, zeroPixel]

theorem tp_R1 (r g b : ℕ) :
    pre_process_corners default_config { kernelZero with j := ⟨r, g, b, 0⟩ } =
      blendNone :=
  pre_process_alpha0 _ _ (by simp [kernelZero, zeroPixel]) (by simp [kernelZero, zeroPixel])
    (by simp [kernelZero, zeroPixel]) (by simp [kernelZero, zeroPixel])
    (by simp [kernelZero, zeroPixel]) (by simp [kernelZero, zeroPixel]) rfl
    (by simp [kernelZero, zeroPixel]) (by simp [kernelZero, zeroPixel])
    (by simp [kernelZero, zeroPixel]) (by simp [kernelZero, zeroPixel])
    (by simp [kernelZero, zeroPixel])

theorem tp_PP (r g b : ℕ) :
    pre_pass [⟨r, g, b, 0⟩] 1 1 default_config (-1) = [blendNone] := by
  simp only [pre_pass, pre_pass_step, tp_K0, tp_R0,
    (by decide : List.range 1 = [0]), List.foldl_cons, List.foldl_nil,
    Nat.cast_zero, tp_K1, tp_R1]
  simp [blendNone]

theorem tp_K2 (r g b : ℕ) : init_row [⟨r, g, b, 0⟩] 1 1 0 =
    { kernelZero with g := ⟨r, g, b, 0⟩ } := by
  norm_num [init_row, fill_dhlp, row_read, kernelZero, zeroPixel]

theorem tp_R2 (r g b : ℕ) :
    pre_process_corners default_config { kernelZero with g := ⟨r, g, b, 0⟩ } =
      blendNone :=
  pre_process_alpha0 _ _ (by simp [kernelZero, zeroPixel]) (by simp [kernelZero, zeroPixel])
    (by simp [kernelZero, zeroPixel]) (by simp [kernelZero, zeroPixel])
    (by simp [kernelZero, zeroPixel]) (by simp [kernelZero, zeroPixel])
    (by simp [kernelZero, zeroPixel]) rfl
    (by simp [kernelZero, zeroPixel]) (by simp [kernelZero, zeroPixel])
    (by simp [kernelZero, zeroPixel]) (by simp [kernelZero, zeroPixel])

theorem tp_K3 (r g b : ℕ) :
    next_column [⟨r, g, b, 0⟩] 1 1 0 { kernelZero with g := ⟨r, g, b, 0⟩ } 0 =
      { kernelZero with f := ⟨r, g, b, 0⟩ } := by
  norm_num [next_column, fill_dhlp, row_read, kernelZero, zeroPixel]

theorem tp_R3 (r g b : ℕ) :
    pre_process_corners default_config { kernelZero with f := ⟨r, g, b, 0⟩ } =
      blendNone :=
  pre_process_alpha0 _ _ (by simp [kernelZero, zeroPixel]) rfl
    (by simp [kernelZero, zeroPixel]) (by simp [kernelZero, zeroPixel])
    (by simp [kernelZero, zeroPixel]) (by simp [kernelZero, zeroPixel])
    (by simp [kernelZero, zeroPixel]) (by simp [kernelZero, zeroPixel])
    (by simp [kernelZero, zeroPixel]) (by simp [kernelZero, zeroPixel])
    (by simp [kernelZero, zeroPixel]) (by simp [kernelZero, zeroPixel])


theorem tp_fill_2 (x v : Rgba) :
    fill_block (List.replicate 4 x) 0 2 v 2 2 = List.replicate 4 v := by
  norm_num [fill_block, List.replicate, (by decide : List.range 2 = [0, 1])]

theorem tp_row_2 (r g b : ℕ) :
    process_row 2 [⟨r, g, b, 0⟩] 1 1 default_config
      ([blendNone], List.replicate 4 zeroPixel) 0 =
      ([blendNone], List.replicate 4 (⟨r, g, b, 0⟩ : Rgba)) := by
  simp only [process_row, row_step, tp_K2, tp_R2,
    (by decide : List.range 1 = [0]), List.foldl_cons, List.foldl_nil,
    Nat.cast_zero, tp_K3, tp_R3, List.getD_cons_zero]
  norm_num [blendNone, Blend2x2.blending_needed, tp_fill_2]

theorem tp_scale_2 (r g b : ℕ) :
    scale_image 2 [⟨r, g, b, 0⟩] (List.replicate 4 zeroPixel) 1 1
      default_config 0 1 = List.replicate 4 (⟨r, g, b, 0⟩ : Rgba) := by
  simp only [scale_image, Nat.cast_zero]
  rw [show ((0 : ℤ) - 1) = -1 by norm_num, tp_PP,
    show List.range' 0 (min 1 1 - 0) = [0] from by decide,
    List.foldl_cons, List.foldl_nil, tp_row_2]

theorem tp_rgba_2 (r g b : ℕ) :
    scale_rgba [r, g, b, 0] 1 1 2 =
      Except.ok (pixels_to_bytes (List.replicate 4 (⟨r, g, b, 0⟩ : Rgba))) := by
  unfold scale_rgba
  norm_num [bytes_to_pixels]
  rw [tp_scale_2]

theorem tp_fill_3 (x v : Rgba) :
    fill_block (List.replicate 9 x) 0 3 v 3 3 = List.replicate 9 v := by
  norm_num [fill_block, List.replicate, (by decide : List.range 3 = [0, 1, 2])]

theorem tp_row_3 (r g b : ℕ) :
    process_row 3 [⟨r, g, b, 0⟩] 1 1 default_config
      ([blendNone], List.replicate 9 zeroPixel) 0 =
      ([blendNone], List.replicate 9 (⟨r, g, b, 0⟩ : Rgba)) := by
  simp only [process_row, row_step, tp_K2, tp_R2,
    (by decide : List.range 1 = [0]), List.foldl_cons, List.foldl_nil,
    Nat.cast_zero, tp_K3, tp_R3, List.getD_cons_zero]
  norm_num [blendNone, Blend2x2.blending_needed, tp_fill_3]

theorem tp_scale_3 (r g b : ℕ) :
    scale_image 3 [⟨r, g, b, 0⟩] (List.replicate 9 zeroPixel) 1 1
      default_config 0 1 = List.replicate 9 (⟨r, g, b, 0⟩ : Rgba) := by
  simp only [scale_image, Nat.cast_zero]
  rw [show ((0 : ℤ) - 1) = -1 by norm_num, tp_PP,
    show List.range' 0 (min 1 1 - 0) = [0] from by decide,
    List.foldl_cons, List.foldl_nil, tp_row_3]

theorem tp_rgba_3 (r g b : ℕ) :
    scale_rgba [r, g, b, 0] 1 1 3 =
      Except.ok (pixels_to_bytes (List.replicate 9 (⟨r, g, b, 0⟩ : Rgba))) := by
  unfold scale_rgba
  norm_num [bytes_to_pixels]
  rw [tp_scale_3]

theorem tp_fill_4 (x v : Rgba) :
    fill_block (List.replicate 16 x) 0 4 v 4 4 = List.replicate 16 v := by
  norm_num [fill_block, List.replicate, (by decide : List.range 4 = [0, 1, 2, 3])]

theorem tp_row_4 (r g b : ℕ) :
    process_row 4 [⟨r, g, b, 0⟩] 1 1 default_config
      ([blendNone], List.replicate 16 zeroPixel) 0 =
      ([blendNone], List.replicate 16 (⟨r, g, b, 0⟩ : Rgba)) := by
  simp only [process_row, row_step, tp_K2, tp_R2,
    (by decide : List.range 1 = [0]), List.foldl_cons, List.foldl_nil,
    Nat.cast_zero, tp_K3, tp_R3, List.getD_cons_zero]
  norm_num [blendNone, Blend2x2.blending_needed, tp_fill_4]

theorem tp_scale_4 (r g b : ℕ) :
    scale_image 4 [⟨r, g, b, 0⟩] (List.replicate 16 zeroPixel) 1 1
      default_config 0 1 = List.replicate 16 (⟨r, g, b, 0⟩ : Rgba) := by
  simp only [scale_image, Nat.cast_zero]
  rw [show ((0 : ℤ) - 1) = -1 by norm_num, tp_PP,
    show List.range' 0 (min 1 1 - 0) = [0] from by decide,
    List.foldl_cons, List.foldl_nil, tp_row_4]

theorem tp_rgba_4 (r g b : ℕ) :
    scale_rgba [r, g, b, 0] 1 1 4 =
      Except.ok (pixels_to_bytes (List.replicate 16 (⟨r, g, b, 0⟩ : Rgba))) := by
  unfold scale_rgba
  norm_num [bytes_to_pixels]
  rw [tp_scale_4]

theorem tp_fill_5 (x v : Rgba) :
    fill_block (List.replicate 25 x) 0 5 v 5 5 = List.replicate 25 v := by
  norm_num [fill_block, List.replicate, (by decide : List.range 5 = [0, 1, 2, 3, 4])]

theorem tp_row_5 (r g b : ℕ) :
    process_row 5 [⟨r, g, b, 0⟩] 1 1 default_config
      ([blendNone], List.replicate 25 zeroPixel) 0 =
      ([blendNone], List.replicate 25 (⟨r, g, b, 0⟩ : Rgba)) := by
  simp only [process_row, row_step, tp_K2, tp_R2,
    (by decide : List.range 1 = [0]), List.foldl_cons, List.foldl_nil,
    Nat.cast_zero, tp_K3, tp_R3, List.getD_cons_zero]
  norm_num [blendNone, Blend2x2.blending_needed, tp_fill_5]

theorem tp_scale_5 (r g b : ℕ) :
    scale_image 5 [⟨r, g, b, 0⟩] (List.replicate 25 zeroPixel) 1 1
      default_config 0 1 = List.replicate 25 (⟨r, g, b, 0⟩ : Rgba) := by
  simp only [scale_image, Nat.cast_zero]
  rw [show ((0 : ℤ) - 1) = -1 by norm_num, tp_PP,
    show List.range' 0 (min 1 1 - 0) = [0] from by decide,
    List.foldl_cons, List.foldl_nil, tp_row_5]

theorem tp_rgba_5 (r g b : ℕ) :
    scale_rgba [r, g, b, 0] 1 1 5 =
      Except.ok (pixels_to_bytes (List.replicate 25 (⟨r, g, b, 0⟩ : Rgba))) := by
  unfold scale_rgba
  norm_num [bytes_to_pixels]
  rw [tp_scale_5]

theorem tp_fill_6 (x v : Rgba) :
    fill_block (List.replicate 36 x) 0 6 v 6 6 = List.replicate 36 v := by
  norm_num [fill_block, List.replicate, (by decide : List.range 6 = [0, 1, 2, 3, 4, 5])]

theorem tp_row_6 (r g b : ℕ) :
    process_row 6 [⟨r, g, b, 0⟩] 1 1 default_config
      ([blendNone], List.replicate 36 zeroPixel) 0 =
      ([blendNone], List.replicate 36 (⟨r, g, b, 0⟩ : Rgba)) := by
  simp only [process_row, row_step, tp_K2, tp_R2,
    (by decide : List.range 1 = [0]), List.foldl_cons, List.foldl_nil,
    Nat.cast_zero, tp_K3, tp_R3, List.getD_cons_zero]
  norm_num [blendNone, Blend2x2.blending_needed, tp_fill_6]

theorem tp_scale_6 (r g b : ℕ) :
    scale_image 6 [⟨r, g, b, 0⟩] (List.replicate 36 zeroPixel) 1 1
      default_config 0 1 = List.replicate 36 (⟨r, g, b, 0⟩ : Rgba) := by
  simp only [scale_image, Nat.cast_zero]
  rw [show ((0 : ℤ) - 1) = -1 by norm_num, tp_PP,
    show List.range' 0 (min 1 1 - 0) = [0] from by decide,
    List.foldl_cons, List.foldl_nil, tp_row_6]

theorem tp_rgba_6 (r g b : ℕ) :
    scale_rgba [r, g, b, 0] 1 1 6 =
      Except.ok (pixels_to_bytes (List.replicate 36 (⟨r, g, b, 0⟩ : Rgba))) := by
  unfold scale_rgba
  norm_num [bytes_to_pixels]
  rw [tp_scale_6]


/-! ### Stripe determinism (src/scaler.rs, claim C3)

After every processed row, the row-ahead buffer maintained by `scale_image`
is a function of the source alone, and the destination rows written for row
`y` are functions of the source alone, confined to row block `y`. The
lemmas below make this precise and culminate in the stripe-partition
theorem. -/

theorem getD_set_self {α : Type _} (l : List α) (i : ℕ) (v d : α) (h : i < l.length) :
    (l.set i v).getD i d = v := by
  rw [List.getD_eq_getElem?_getD, List.getElem?_set_self h]
  rfl

theorem getD_set_ne {α : Type _} (l : List α) {i j : ℕ} (v d : α) (h : i ≠ j) :
    (l.set i v).getD j d = l.getD j d := by
  rw [List.getD_eq_getElem?_getD, List.getElem?_set_ne h, ← List.getD_eq_getElem?_getD]

theorem getD_eq_getElem {α : Type _} (l : List α) (i : ℕ) (d : α) (h : i < l.length) :
    l.getD i d = l[i] := by
  rw [List.getD_eq_getElem?_getD, List.getElem?_eq_getElem h]
  rfl

/-- The kernel state of the engine's column loop at row `y`: position 0 is
the freshly initialised kernel, position `n + 1` results from the
`next_column` call of iteration `x = n`. -/
def kernel_at (src : List Rgba) (w h : ℕ) (y : ℤ) : ℕ → Kernel4x4
  | 0 => init_row src w h y
  | n + 1 => next_column src w h y (kernel_at src w h y n) (n : ℤ)

/-- The corner classification computed at kernel position `n` of row `y`. -/
noncomputable def res_at (src : List Rgba) (w h : ℕ) (cfg : ScalerConfig)
    (y : ℤ) (n : ℕ) : Blend2x2 :=
  pre_process_corners cfg (kernel_at src w h y n)

/-- The value of row-ahead buffer entry `x` after row `y` has been fully
processed (equally: after the pre-pass has run with row `y`). -/
noncomputable def canonEntry (src : List Rgba) (w h : ℕ) (cfg : ScalerConfig)
    (y : ℤ) (x : ℕ) : Blend2x2 :=
  ⟨(res_at src w h cfg y x).bottom_right,
   (res_at src w h cfg y (x + 1)).bottom_left, BlendType.none, BlendType.none⟩

/-- The canonical row-ahead buffer derived from row `y`, a function of the
source alone. -/
noncomputable def canon_buf (src : List Rgba) (w h : ℕ) (cfg : ScalerConfig)
    (y : ℤ) : List Blend2x2 :=
  (List.range w).map (canonEntry src w h cfg y)

/-- The pre-pass fold state after `n` iterations. -/
noncomputable def pp_state (src : List Rgba) (w h : ℕ) (cfg : ScalerConfig)
    (y : ℤ) (n : ℕ) : Kernel4x4 × List Blend2x2 :=
  (List.range n).foldl (pre_pass_step src w h cfg y)
    (init_row src w h y,
      (List.replicate w blendNone).set 0
        { blendNone with
          top_left := (pre_process_corners cfg (init_row src w h y)).bottom_right })

theorem pp_state_inv (src : List Rgba) (w h : ℕ) (cfg : ScalerConfig) (y : ℤ)
    (hw : 0 < w) :
    ∀ n, n ≤ w →
      (pp_state src w h cfg y n).1 = kernel_at src w h y n ∧
      (pp_state src w h cfg y n).2.length = w ∧
      (∀ i, i < n →
        (pp_state src w h cfg y n).2.getD i blendNone = canonEntry src w h cfg y i) ∧
      (n < w →
        (pp_state src w h cfg y n).2.getD n blendNone =
          { blendNone with top_left := (res_at src w h cfg y n).bottom_right }) := by
  intro n
  induction n with
  | zero =>
    intro _
    refine ⟨rfl, ?_, ?_, ?_⟩
    · simp [pp_state]
    · intro i hi
      omega
    · intro h0
      have hl : 0 < (List.replicate w blendNone).length := by simpa using hw
      exact getD_set_self _ 0 _ _ hl
  | succ n ih =>
    intro hn
    have hnw : n < w := by omega
    obtain ⟨ihk, ihl, ihpre, ihcur⟩ := ih (by omega)
    have hstep : pp_state src w h cfg y (n + 1) =
        pre_pass_step src w h cfg y (pp_state src w h cfg y n) n := by
      unfold pp_state
      rw [List.range_succ, List.foldl_append, List.foldl_cons, List.foldl_nil]
    have hker : (pp_state src w h cfg y (n + 1)).1 = kernel_at src w h y (n + 1) := by
      rw [hstep]
      unfold pre_pass_step
      rw [ihk]
      rfl
    have hres : pre_process_corners cfg
        (next_column src w h y (pp_state src w h cfg y n).1 (n : ℤ)) =
        res_at src w h cfg y (n + 1) := by
      rw [ihk]
      rfl
    refine ⟨hker, ?_, ?_, ?_⟩
    · rw [hstep]
      simp only [pre_pass_step]
      by_cases hn1 : n + 1 < w <;>
        simp [hn1, List.length_set, ihl]
    · intro i hi
      rw [hstep]
      simp only [pre_pass_step]
      rw [hres]
      by_cases hi2 : i = n
      · subst hi2
        have hilen : i < ((pp_state src w h cfg y i).2.set i
            { (pp_state src w h cfg y i).2.getD i blendNone with
              top_right := (res_at src w h cfg y (i + 1)).bottom_left }).length := by
          rw [List.length_set, ihl]
          exact hnw
        by_cases hn1 : i + 1 < w <;>
          · simp only [hn1, if_true, if_false, reduceIte]
            first
            | rw [getD_set_ne _ _ _ (by omega : i + 1 ≠ i),
                getD_set_self _ _ _ _ (by rw [ihl]; exact hnw), ihcur hnw]
              rfl
            | rw [getD_set_self _ _ _ _ (by rw [ihl]; exact hnw), ihcur hnw]
              rfl
      · have hi3 : i < n := by omega
        by_cases hn1 : n + 1 < w <;>
          · simp only [hn1, if_true, if_false, reduceIte]
            first
            | rw [getD_set_ne _ _ _ (by omega : n + 1 ≠ i),
                getD_set_ne _ _ _ (by omega : n ≠ i), ihpre i hi3]
            | rw [getD_set_ne _ _ _ (by omega : n ≠ i), ihpre i hi3]
    · intro hn1
      rw [hstep]
      simp only [pre_pass_step]
      rw [hres]
      simp only [hn1, if_true, reduceIte]
      rw [getD_set_self _ _ _ _ (by rw [List.length_set, ihl]; exact hn1)]

theorem pre_pass_eq_canon (src : List Rgba) (w h : ℕ) (cfg : ScalerConfig)
    (y : ℤ) (hw : 0 < w) :
    pre_pass src w h cfg y = canon_buf src w h cfg y := by
  obtain ⟨_, hlen, hpre, _⟩ := pp_state_inv src w h cfg y hw w (le_refl w)
  have h1 : pre_pass src w h cfg y = (pp_state src w h cfg y w).2 := rfl
  have h2 : (canon_buf src w h cfg y).length = w := by
    simp [canon_buf]
  apply List.ext_getElem (by rw [h1, hlen, h2])
  intro i h1i h2i
  have hiw : i < w := by rw [h1, hlen] at h1i; exact h1i
  have e2 : (canon_buf src w h cfg y).getD i blendNone = canonEntry src w h cfg y i := by
    unfold canon_buf
    exact range_map_getD _ _ _ hiw _
  have e3 : (pre_pass src w h cfg y)[i] = (pre_pass src w h cfg y).getD i blendNone :=
    (getD_eq_getElem _ _ _ h1i).symm
  have e4 : (canon_buf src w h cfg y)[i] = (canon_buf src w h cfg y).getD i blendNone :=
    (getD_eq_getElem _ _ _ h2i).symm
  rw [e3, e4, e2, h1, hpre i hiw]

/-- The main-loop fold state after `n` iterations of row `y`, starting from
buffer `buf0` and destination `dest0`. -/
noncomputable def row_state (S : ℕ) (src : List Rgba) (w h : ℕ) (cfg : ScalerConfig)
    (y : ℕ) (buf0 : List Blend2x2) (dest0 : List Rgba) (n : ℕ) : RowState :=
  (List.range n).foldl (row_step S src w h cfg y)
    ⟨init_row src w h (y : ℤ),
     { blendNone with
       top_left := (pre_process_corners cfg (init_row src w h (y : ℤ))).bottom_right },
     buf0.set 0
       { buf0.getD 0 blendNone with
         top_left := (pre_process_corners cfg (init_row src w h (y : ℤ))).top_right },
     dest0⟩

theorem process_row_eq_row_state (S : ℕ) (src : List Rgba) (w h : ℕ)
    (cfg : ScalerConfig) (y : ℕ) (buf0 : List Blend2x2) (dest0 : List Rgba) :
    process_row S src w h cfg (buf0, dest0) y =
      ((row_state S src w h cfg y buf0 dest0 w).buf,
       (row_state S src w h cfg y buf0 dest0 w).dest) := rfl

theorem row_state_inv (S : ℕ) (src : List Rgba) (w h : ℕ) (cfg : ScalerConfig)
    (y : ℕ) (buf0 : List Blend2x2) (dest0 : List Rgba)
    (hlen : buf0.length = w) (_hw : 0 < w) :
    ∀ n, n ≤ w →
      (row_state S src w h cfg y buf0 dest0 n).ker = kernel_at src w h (y : ℤ) n ∧
      (n < w →
        (row_state S src w h cfg y buf0 dest0 n).bxy1 =
          { blendNone with
            top_left := (res_at src w h cfg (y : ℤ) n).bottom_right }) ∧
      (row_state S src w h cfg y buf0 dest0 n).buf.length = w ∧
      (∀ i, i < n →
        (row_state S src w h cfg y buf0 dest0 n).buf.getD i blendNone =
          canonEntry src w h cfg (y : ℤ) i) := by
  intro n
  induction n with
  | zero =>
    intro _
    refine ⟨rfl, fun _ => rfl, ?_, fun i hi => by omega⟩
    simp [row_state, List.length_set, hlen]
  | succ n ih =>
    intro hn
    have hnw : n < w := by omega
    obtain ⟨ihk, ihb, ihl, ihpre⟩ := ih (by omega)
    have hstep : row_state S src w h cfg y buf0 dest0 (n + 1) =
        row_step S src w h cfg y (row_state S src w h cfg y buf0 dest0 n) n := by
      unfold row_state
      rw [List.range_succ, List.foldl_append, List.foldl_cons, List.foldl_nil]
    have hres : pre_process_corners cfg
        (next_column src w h (y : ℤ) (row_state S src w h cfg y buf0 dest0 n).ker (n : ℤ)) =
        res_at src w h cfg (y : ℤ) (n + 1) := by
      rw [ihk]
      rfl
    refine ⟨?_, ?_, ?_, ?_⟩
    · rw [hstep]
      simp only [row_step]
      rw [ihk]
      rfl
    · intro hn1
      rw [hstep]
      simp only [row_step]
      rw [hres]
      simp only [hn1, if_true, reduceIte]
    · rw [hstep]
      simp only [row_step]
      by_cases hn1 : n + 1 < w <;>
        simp [hn1, List.length_set, ihl]
    · intro i hi
      rw [hstep]
      simp only [row_step]
      rw [hres]
      by_cases hi2 : i = n
      · subst hi2
        by_cases hn1 : i + 1 < w <;>
          · simp only [hn1, if_true, if_false, reduceIte]
            first
            | rw [getD_set_ne _ _ _ (by omega : i + 1 ≠ i),
                getD_set_self _ _ _ _ (by rw [ihl]; exact hnw), ihb hnw]
              rfl
            | rw [getD_set_self _ _ _ _ (by rw [ihl]; exact hnw), ihb hnw]
              rfl
      · have hi3 : i < n := by omega
        by_cases hn1 : n + 1 < w <;>
          · simp only [hn1, if_true, if_false, reduceIte]
            first
            | rw [getD_set_ne _ _ _ (by omega : n + 1 ≠ i),
                getD_set_ne _ _ _ (by omega : n ≠ i), ihpre i hi3]
            | rw [getD_set_ne _ _ _ (by omega : n ≠ i), ihpre i hi3]

/-- The row-ahead buffer left by a fully processed row is the canonical
buffer of that row, whatever buffer and destination the row started from. -/
theorem process_row_buf_canon (S : ℕ) (src : List Rgba) (w h : ℕ)
    (cfg : ScalerConfig) (y : ℕ) (buf0 : List Blend2x2) (dest0 : List Rgba)
    (hlen : buf0.length = w) (hw : 0 < w) :
    (process_row S src w h cfg (buf0, dest0) y).1 = canon_buf src w h cfg (y : ℤ) := by
  obtain ⟨_, _, hl, hpre⟩ :=
    row_state_inv S src w h cfg y buf0 dest0 hlen hw w (le_refl w)
  have h1 : (process_row S src w h cfg (buf0, dest0) y).1 =
      (row_state S src w h cfg y buf0 dest0 w).buf := rfl
  have h2 : (canon_buf src w h cfg (y : ℤ)).length = w := by
    simp [canon_buf]
  apply List.ext_getElem (by rw [h1, hl, h2])
  intro i h1i h2i
  have hiw : i < w := by rw [h1, hl] at h1i; exact h1i
  have e2 : (canon_buf src w h cfg (y : ℤ)).getD i blendNone =
      canonEntry src w h cfg (y : ℤ) i := by
    unfold canon_buf
    exact range_map_getD _ _ _ hiw _
  have e3 : (process_row S src w h cfg (buf0, dest0) y).1[i] =
      (process_row S src w h cfg (buf0, dest0) y).1.getD i blendNone :=
    (getD_eq_getElem _ _ _ h1i).symm
  have e4 : (canon_buf src w h cfg (y : ℤ))[i] =
      (canon_buf src w h cfg (y : ℤ)).getD i blendNone :=
    (getD_eq_getElem _ _ _ h2i).symm
  rw [e3, e4, e2, h1, hpre i hiw]

/-- Membership of a destination index in the `S` by `S` column block with
top-left destination index `base` and row stride `W`. -/
def in_col (W S base i : ℕ) : Prop :=
  ∃ jj ii, jj < S ∧ ii < S ∧ i = base + jj * W + ii

theorem rotate_index_bounds {x y S : ℕ} (R : Rotation) (hx : x < S) (hy : y < S) :
    (rotate_index x y S R).1 < S ∧ (rotate_index x y S R).2 < S := by
  cases R <;> simp [rotate_index, rot_step] <;> omega

theorem op_index_in_col {S x y : ℕ} (R : Rotation) (W base : ℕ)
    (hx : x < S) (hy : y < S) : in_col W S base (op_index S R W base x y) := by
  obtain ⟨h1, h2⟩ := rotate_index_bounds R hx hy
  exact ⟨(rotate_index x y S R).2, (rotate_index x y S R).1, h2, h1, by
    unfold op_index
    ring⟩

/-- Bound on the pattern coordinates of a blend operation. -/
def op_bounded (S : ℕ) : BlendOp → Prop
  | .grad _ _ x y => x < S ∧ y < S
  | .set x y => x < S ∧ y < S

theorem tables_bounded (S : ℕ) :
    (∀ op ∈ blend_line_shallow_ops S, op_bounded S op) ∧
    (∀ op ∈ blend_line_steep_ops S, op_bounded S op) ∧
    (∀ op ∈ blend_line_steep_and_shallow_ops S, op_bounded S op) ∧
    (∀ op ∈ blend_line_diagonal_ops S, op_bounded S op) ∧
    (∀ op ∈ blend_corner_ops S, op_bounded S op) := by
  have hb : ∀ (T : ℕ) (ops : List BlendOp),
      (∀ op ∈ ops, op_bounded T op) ↔
        ops.all (fun op =>
          match op with
          | .grad _ _ x y => decide (x < T ∧ y < T)
          | .set x y => decide (x < T ∧ y < T)) = true := by
    intro T ops
    rw [List.all_eq_true]
    constructor
    · intro hin op hop
      have := hin op hop
      cases op <;> simpa [op_bounded] using this
    · intro hin op hop
      have := hin op hop
      cases op <;> simpa [op_bounded] using this
  rcases S with _ | _ | _ | _ | _ | _ | _ | S
  · refine ⟨?_, ?_, ?_, ?_, ?_⟩ <;> (rw [hb]; decide)
  · refine ⟨?_, ?_, ?_, ?_, ?_⟩ <;> (rw [hb]; decide)
  · refine ⟨?_, ?_, ?_, ?_, ?_⟩ <;> (rw [hb]; decide)
  · refine ⟨?_, ?_, ?_, ?_, ?_⟩ <;> (rw [hb]; decide)
  · refine ⟨?_, ?_, ?_, ?_, ?_⟩ <;> (rw [hb]; decide)
  · refine ⟨?_, ?_, ?_, ?_, ?_⟩ <;> (rw [hb]; decide)
  · refine ⟨?_, ?_, ?_, ?_, ?_⟩ <;> (rw [hb]; decide)
  · refine ⟨fun op hop => ?_, fun op hop => ?_, fun op hop => ?_,
      fun op hop => ?_, fun op hop => ?_⟩
    · rw [show blend_line_shallow_ops (S + 7) = [] from rfl] at hop
      cases hop
    · rw [show blend_line_steep_ops (S + 7) = [] from rfl] at hop
      cases hop
    · rw [show blend_line_steep_and_shallow_ops (S + 7) = [] from rfl] at hop
      cases hop
    · rw [show blend_line_diagonal_ops (S + 7) = [] from rfl] at hop
      cases hop
    · rw [show blend_corner_ops (S + 7) = [] from rfl] at hop
      cases hop

theorem fold_set_length {α : Type _} (b : ℕ) (v : α) (d : List α) (k : ℕ) :
    ((List.range k).foldl (fun d2 ii => d2.set (b + ii) v) d).length = d.length := by
  induction k with
  | zero => rfl
  | succ k ih =>
    rw [List.range_succ, List.foldl_append, List.foldl_cons, List.foldl_nil,
      List.length_set, ih]

theorem fold_set_getD {α : Type _} (b : ℕ) (v z : α) (d : List α) (k : ℕ) (i : ℕ) :
    ((List.range k).foldl (fun d2 ii => d2.set (b + ii) v) d).getD i z =
      if b ≤ i ∧ i < b + k ∧ i < d.length then v else d.getD i z := by
  induction k with
  | zero =>
    simp only [List.range_zero, List.foldl_nil]
    rw [if_neg (by omega)]
  | succ k ih =>
    rw [List.range_succ, List.foldl_append, List.foldl_cons, List.foldl_nil]
    by_cases hik : i = b + k
    · subst hik
      by_cases hlen : b + k < d.length
      · rw [getD_set_self _ _ _ _ (by rw [fold_set_length]; exact hlen),
          if_pos (by omega)]
      · rw [List.set_eq_of_length_le (by rw [fold_set_length]; omega), ih,
          if_neg (by omega), if_neg (by omega)]
    · rw [getD_set_ne _ _ _ (fun hc => hik hc.symm), ih]
      by_cases hcond : b ≤ i ∧ i < b + k ∧ i < d.length
      · rw [if_pos hcond, if_pos (by omega)]
      · rw [if_neg hcond, if_neg (by omega)]

theorem fill_block_length (d : List Rgba) (base W : ℕ) (v : Rgba) (bw bh : ℕ) :
    (fill_block d base W v bw bh).length = d.length := by
  unfold fill_block
  induction bh generalizing d with
  | zero => rfl
  | succ bh ih =>
    rw [List.range_succ, List.foldl_append, List.foldl_cons, List.foldl_nil]
    rw [show ∀ dd : List Rgba,
        (List.range bw).foldl (fun d2 ii => d2.set (base + bh * W + ii) v) dd =
        (List.range bw).foldl (fun d2 ii => d2.set ((base + bh * W) + ii) v) dd
      from fun dd => rfl]
    rw [fold_set_length, ih]

theorem fill_block_getD (d : List Rgba) (base W : ℕ) (v z : Rgba) (bw bh : ℕ) (i : ℕ) :
    (fill_block d base W v bw bh).getD i z =
      if (∃ jj, jj < bh ∧ base + jj * W ≤ i ∧ i < base + jj * W + bw) ∧
          i < d.length then v
      else d.getD i z := by
  unfold fill_block
  induction bh generalizing d with
  | zero =>
    simp only [List.range_zero, List.foldl_nil]
    rw [if_neg (by rintro ⟨⟨jj, hjj, _⟩, _⟩; omega)]
  | succ bh ih =>
    rw [List.range_succ, List.foldl_append, List.foldl_cons, List.foldl_nil]
    rw [show ∀ dd : List Rgba,
        (List.range bw).foldl (fun d2 ii => d2.set (base + bh * W + ii) v) dd =
        (List.range bw).foldl (fun d2 ii => d2.set ((base + bh * W) + ii) v) dd
      from fun dd => rfl]
    rw [fold_set_getD]
    rw [show ((List.range bh).foldl
        (fun dd jj => (List.range bw).foldl (fun d2 ii => d2.set (base + jj * W + ii) v) dd)
        d).length = d.length from fill_block_length d base W v bw bh]
    by_cases hrow : base + bh * W ≤ i ∧ i < base + bh * W + bw ∧ i < d.length
    · rw [if_pos hrow, if_pos ⟨⟨bh, by omega, by omega, by omega⟩, by omega⟩]
    · rw [if_neg hrow, ih]
      by_cases hcond : (∃ jj, jj < bh ∧ base + jj * W ≤ i ∧ i < base + jj * W + bw) ∧
          i < d.length
      · obtain ⟨⟨jj, hjj⟩, hL⟩ := hcond
        rw [if_pos ⟨⟨jj, hjj⟩, hL⟩, if_pos ⟨⟨jj, by omega, hjj.2⟩, hL⟩]
      · rw [if_neg hcond, if_neg (by
          rintro ⟨⟨jj, hjj1, hjj2⟩, hL⟩
          rcases Nat.lt_succ_iff_lt_or_eq.mp hjj1 with h3 | h3
          · exact hcond ⟨⟨jj, h3, hjj2⟩, hL⟩
          · subst h3
            exact hrow ⟨hjj2.1, hjj2.2, hL⟩)]

theorem getD_set_general {α : Type _} (l : List α) (t i : ℕ) (v z : α) :
    (l.set t v).getD i z = if i = t ∧ t < l.length then v else l.getD i z := by
  by_cases hit : i = t
  · subst hit
    by_cases hlen : i < l.length
    · rw [getD_set_self _ _ _ _ hlen, if_pos ⟨rfl, hlen⟩]
    · rw [List.set_eq_of_length_le (by omega), if_neg (by omega)]
  · rw [getD_set_ne _ _ _ (fun hc => hit hc.symm), if_neg (by tauto)]

theorem getD_of_length_le {α : Type _} (l : List α) (i : ℕ) (z : α)
    (h : l.length ≤ i) : l.getD i z = z := by
  rw [List.getD_eq_getElem?_getD, List.getElem?_eq_none h]
  rfl

theorem apply_blend_ops_length (S : ℕ) (R : Rotation) (base W : ℕ) (col : Rgba)
    (d : List Rgba) (ops : List BlendOp) :
    (apply_blend_ops S R base W col d ops).length = d.length := by
  induction ops generalizing d with
  | nil => rfl
  | cons op ops ih =>
    show (apply_blend_ops S R base W col (apply_blend_op S R base W col d op) ops).length = _
    rw [ih]
    cases op <;> simp [apply_blend_op, List.length_set]

theorem apply_blend_ops_outside (S : ℕ) (R : Rotation) (base W : ℕ) (col : Rgba)
    (z : Rgba) (i : ℕ) (hout : ¬in_col W S base i) :
    ∀ (ops : List BlendOp) (d : List Rgba), (∀ op ∈ ops, op_bounded S op) →
      (apply_blend_ops S R base W col d ops).getD i z = d.getD i z := by
  intro ops
  induction ops with
  | nil => intro d _; rfl
  | cons op ops ih =>
    intro d hbound
    show (apply_blend_ops S R base W col (apply_blend_op S R base W col d op) ops).getD i z = _
    rw [ih _ (fun o ho => hbound o (List.mem_cons_of_mem _ ho))]
    have hb := hbound op (List.mem_cons_self _ _)
    cases op with
    | grad m n x y =>
      obtain ⟨hx, hy⟩ := hb
      have hcol := op_index_in_col R W base hx hy
      exact getD_set_ne _ _ _ (fun hc => hout (hc ▸ hcol))
    | set x y =>
      obtain ⟨hx, hy⟩ := hb
      have hcol := op_index_in_col R W base hx hy
      exact getD_set_ne _ _ _ (fun hc => hout (hc ▸ hcol))

theorem apply_blend_ops_congr (S : ℕ) (R : Rotation) (base W : ℕ) (col : Rgba) :
    ∀ (ops : List BlendOp) (d1 d2 : List Rgba), d1.length = d2.length →
      (∀ j, in_col W S base j → d1.getD j zeroPixel = d2.getD j zeroPixel) →
      ∀ j, in_col W S base j →
        (apply_blend_ops S R base W col d1 ops).getD j zeroPixel =
          (apply_blend_ops S R base W col d2 ops).getD j zeroPixel := by
  intro ops
  induction ops with
  | nil => intro d1 d2 hL hag; exact hag
  | cons op ops ih =>
    intro d1 d2 hL hag
    have hstep : (apply_blend_op S R base W col d1 op).length = d1.length ∧
        (apply_blend_op S R base W col d2 op).length = d2.length ∧
        ∀ j, in_col W S base j →
          (apply_blend_op S R base W col d1 op).getD j zeroPixel =
            (apply_blend_op S R base W col d2 op).getD j zeroPixel := by
      cases op with
      | grad m n x y =>
        refine ⟨by simp [apply_blend_op, List.length_set],
          by simp [apply_blend_op, List.length_set], fun j hj => ?_⟩
        simp only [apply_blend_op]
        rw [getD_set_general, getD_set_general, hL]
        by_cases hjt : j = op_index S R W base x y ∧ op_index S R W base x y < d2.length
        · have hr : d1.getD (op_index S R W base x y) zeroPixel =
              d2.getD (op_index S R W base x y) zeroPixel := hag _ (hjt.1 ▸ hj)
          rw [if_pos hjt, if_pos hjt, hr]
        · rw [if_neg hjt, if_neg hjt]
          exact hag j hj
      | set x y =>
        refine ⟨by simp [apply_blend_op, List.length_set],
          by simp [apply_blend_op, List.length_set], fun j hj => ?_⟩
        simp only [apply_blend_op]
        rw [getD_set_general, getD_set_general, hL]
        by_cases hjt : j = op_index S R W base x y ∧ op_index S R W base x y < d2.length
        · rw [if_pos hjt, if_pos hjt]
        · rw [if_neg hjt, if_neg hjt]
          exact hag j hj
    obtain ⟨hl1, hl2, hagree⟩ := hstep
    exact ih _ _ (by rw [hl1, hl2, hL]) hagree

theorem blend_pixel_length (S : ℕ) (R : Rotation) (ker : Kernel4x4)
    (d : List Rgba) (base W : ℕ) (bi : Blend2x2) (cfg : ScalerConfig) :
    (blend_pixel S R ker d base W bi cfg).length = d.length := by
  simp only [blend_pixel]
  split_ifs <;> first | rfl | apply apply_blend_ops_length

theorem blend_pixel_outside (S : ℕ) (R : Rotation) (ker : Kernel4x4)
    (d : List Rgba) (base W : ℕ) (bi : Blend2x2) (cfg : ScalerConfig) (i : ℕ)
    (hout : ¬in_col W S base i) :
    (blend_pixel S R ker d base W bi cfg).getD i zeroPixel = d.getD i zeroPixel := by
  obtain ⟨t1, t2, t3, t4, t5⟩ := tables_bounded S
  simp only [blend_pixel]
  split_ifs <;>
    first
    | rfl
    | exact apply_blend_ops_outside S R base W _ zeroPixel i hout _ d t1
    | exact apply_blend_ops_outside S R base W _ zeroPixel i hout _ d t2
    | exact apply_blend_ops_outside S R base W _ zeroPixel i hout _ d t3
    | exact apply_blend_ops_outside S R base W _ zeroPixel i hout _ d t4
    | exact apply_blend_ops_outside S R base W _ zeroPixel i hout _ d t5

theorem blend_pixel_congr (S : ℕ) (R : Rotation) (ker : Kernel4x4)
    (base W : ℕ) (bi : Blend2x2) (cfg : ScalerConfig) (d1 d2 : List Rgba)
    (hL : d1.length = d2.length)
    (hag : ∀ j, in_col W S base j → d1.getD j zeroPixel = d2.getD j zeroPixel) :
    ∀ j, in_col W S base j →
      (blend_pixel S R ker d1 base W bi cfg).getD j zeroPixel =
        (blend_pixel S R ker d2 base W bi cfg).getD j zeroPixel := by
  intro j hj
  simp only [blend_pixel]
  split_ifs <;>
    first
    | exact hag j hj
    | exact apply_blend_ops_congr S R base W _ _ d1 d2 hL hag j hj

theorem fill_cond_iff (W S base i : ℕ) :
    (∃ jj, jj < S ∧ base + jj * W ≤ i ∧ i < base + jj * W + S) ↔
      in_col W S base i := by
  constructor
  · rintro ⟨jj, h1, h2, h3⟩
    exact ⟨jj, i - (base + jj * W), h1, by omega, by omega⟩
  · rintro ⟨jj, ii, h1, h2, rfl⟩
    exact ⟨jj, h1, by omega, by omega⟩

theorem fill_agree (d1 d2 : List Rgba) (base W : ℕ) (v : Rgba) (Sc : ℕ)
    (hL : d1.length = d2.length) :
    ∀ j, in_col W Sc base j →
      (fill_block d1 base W v Sc Sc).getD j zeroPixel =
        (fill_block d2 base W v Sc Sc).getD j zeroPixel := by
  intro j hj
  rw [fill_block_getD, fill_block_getD]
  have hcond := (fill_cond_iff W Sc base j).mpr hj
  by_cases hlen : j < d1.length
  · rw [if_pos ⟨hcond, hlen⟩, if_pos ⟨hcond, by omega⟩]
  · rw [if_neg (by rintro ⟨_, hj1⟩; omega), if_neg (by rintro ⟨_, hj2⟩; omega)]
    rw [getD_of_length_le _ _ _ (by omega), getD_of_length_le _ _ _ (by omega)]

theorem row_step_two_run (S : ℕ) (src : List Rgba) (w h : ℕ) (cfg : ScalerConfig)
    (y x : ℕ) (st1 st2 : RowState)
    (hk : st1.ker = st2.ker) (hb : st1.bxy1 = st2.bxy1) (hbuf : st1.buf = st2.buf)
    (hL : st1.dest.length = st2.dest.length) :
    (row_step S src w h cfg y st1 x).ker = (row_step S src w h cfg y st2 x).ker ∧
    (row_step S src w h cfg y st1 x).bxy1 = (row_step S src w h cfg y st2 x).bxy1 ∧
    (row_step S src w h cfg y st1 x).buf = (row_step S src w h cfg y st2 x).buf ∧
    (row_step S src w h cfg y st1 x).dest.length = st1.dest.length ∧
    (row_step S src w h cfg y st2 x).dest.length = st2.dest.length ∧
    (∀ i, ¬in_col (w * S) S (y * S * (w * S) + x * S) i →
      (row_step S src w h cfg y st1 x).dest.getD i zeroPixel =
          st1.dest.getD i zeroPixel ∧
      (row_step S src w h cfg y st2 x).dest.getD i zeroPixel =
          st2.dest.getD i zeroPixel) ∧
    (∀ i, in_col (w * S) S (y * S * (w * S) + x * S) i →
      (row_step S src w h cfg y st1 x).dest.getD i zeroPixel =
        (row_step S src w h cfg y st2 x).dest.getD i zeroPixel) := by
  simp only [row_step]
  rw [hk, hb, hbuf]
  have hfL1 : (fill_block st1.dest (y * S * (w * S) + x * S) (w * S)
      (next_column src w h (y : ℤ) st2.ker (x : ℤ)).f S S).length = st1.dest.length :=
    fill_block_length _ _ _ _ _ _
  have hfL2 : (fill_block st2.dest (y * S * (w * S) + x * S) (w * S)
      (next_column src w h (y : ℤ) st2.ker (x : ℤ)).f S S).length = st2.dest.length :=
    fill_block_length _ _ _ _ _ _
  have hfag := fill_agree st1.dest st2.dest (y * S * (w * S) + x * S) (w * S)
    (next_column src w h (y : ℤ) st2.ker (x : ℤ)).f S hL
  refine ⟨rfl, rfl, rfl, ?_, ?_, ?_, ?_⟩
  · split_ifs <;>
      simp only [blend_pixel_length, hfL1]
  · split_ifs <;>
      simp only [blend_pixel_length, hfL2]
  · intro i hout
    constructor <;>
      · split_ifs <;>
          first
          | rw [blend_pixel_outside _ _ _ _ _ _ _ _ _ hout,
              blend_pixel_outside _ _ _ _ _ _ _ _ _ hout,
              blend_pixel_outside _ _ _ _ _ _ _ _ _ hout,
              blend_pixel_outside _ _ _ _ _ _ _ _ _ hout,
              fill_block_getD, if_neg (by
                rintro ⟨hex, _⟩
                exact hout ((fill_cond_iff _ _ _ _).mp hex))]
          | rw [fill_block_getD, if_neg (by
              rintro ⟨hex, _⟩
              exact hout ((fill_cond_iff _ _ _ _).mp hex))]
  · intro i hin
    have hfillLen : (fill_block st1.dest (y * S * (w * S) + x * S) (w * S)
        (next_column src w h (y : ℤ) st2.ker (x : ℤ)).f S S).length =
        (fill_block st2.dest (y * S * (w * S) + x * S) (w * S)
          (next_column src w h (y : ℤ) st2.ker (x : ℤ)).f S S).length := by
      rw [hfL1, hfL2, hL]
    split_ifs
    · apply blend_pixel_congr _ _ _ _ _ _ _ _ _
        (by simp only [blend_pixel_length, hfillLen])
        (blend_pixel_congr _ _ _ _ _ _ _ _ _
          (by simp only [blend_pixel_length, hfillLen])
          (blend_pixel_congr _ _ _ _ _ _ _ _ _
            (by simp only [blend_pixel_length, hfillLen])
            (blend_pixel_congr _ _ _ _ _ _ _ _ _ hfillLen hfag)))
        i hin
    · exact hfag i hin

theorem row_state_two_run (S : ℕ) (src : List Rgba) (w h : ℕ) (cfg : ScalerConfig)
    (y : ℕ) (buf0 : List Blend2x2) (d1 d2 : List Rgba) (hL : d1.length = d2.length) :
    ∀ n,
      (row_state S src w h cfg y buf0 d1 n).ker =
        (row_state S src w h cfg y buf0 d2 n).ker ∧
      (row_state S src w h cfg y buf0 d1 n).bxy1 =
        (row_state S src w h cfg y buf0 d2 n).bxy1 ∧
      (row_state S src w h cfg y buf0 d1 n).buf =
        (row_state S src w h cfg y buf0 d2 n).buf ∧
      (row_state S src w h cfg y buf0 d1 n).dest.length = d1.length ∧
      (row_state S src w h cfg y buf0 d2 n).dest.length = d2.length ∧
      (∀ i, ¬(∃ x, x < n ∧ in_col (w * S) S (y * S * (w * S) + x * S) i) →
        (row_state S src w h cfg y buf0 d1 n).dest.getD i zeroPixel =
            d1.getD i zeroPixel ∧
        (row_state S src w h cfg y buf0 d2 n).dest.getD i zeroPixel =
            d2.getD i zeroPixel) ∧
      (∀ i, (∃ x, x < n ∧ in_col (w * S) S (y * S * (w * S) + x * S) i) →
        (row_state S src w h cfg y buf0 d1 n).dest.getD i zeroPixel =
          (row_state S src w h cfg y buf0 d2 n).dest.getD i zeroPixel) := by
  intro n
  induction n with
  | zero =>
    refine ⟨rfl, rfl, rfl, rfl, rfl, fun i _ => ⟨rfl, rfl⟩, fun i hi => ?_⟩
    obtain ⟨x, hx, _⟩ := hi
    omega
  | succ n ih =>
    obtain ⟨ihk, ihb, ihbuf, ihl1, ihl2, ihout, ihin⟩ := ih
    have hstep1 : row_state S src w h cfg y buf0 d1 (n + 1) =
        row_step S src w h cfg y (row_state S src w h cfg y buf0 d1 n) n := by
      unfold row_state
      rw [List.range_succ, List.foldl_append, List.foldl_cons, List.foldl_nil]
    have hstep2 : row_state S src w h cfg y buf0 d2 (n + 1) =
        row_step S src w h cfg y (row_state S src w h cfg y buf0 d2 n) n := by
      unfold row_state
      rw [List.range_succ, List.foldl_append, List.foldl_cons, List.foldl_nil]
    obtain ⟨c1, c2, c3, c4, c5, c6, c7⟩ :=
      row_step_two_run S src w h cfg y n
        (row_state S src w h cfg y buf0 d1 n) (row_state S src w h cfg y buf0 d2 n)
        ihk ihb ihbuf (by rw [ihl1, ihl2, hL])
    refine ⟨?_, ?_, ?_, ?_, ?_, ?_, ?_⟩
    · rw [hstep1, hstep2]
      exact c1
    · rw [hstep1, hstep2]
      exact c2
    · rw [hstep1, hstep2]
      exact c3
    · rw [hstep1, c4, ihl1]
    · rw [hstep2, c5, ihl2]
    · intro i hi
      have hcn : ¬in_col (w * S) S (y * S * (w * S) + n * S) i := fun hc =>
        hi ⟨n, by omega, hc⟩
      have hio : ¬∃ x, x < n ∧ in_col (w * S) S (y * S * (w * S) + x * S) i := by
        rintro ⟨x, hx, hc⟩
        exact hi ⟨x, by omega, hc⟩
      obtain ⟨e1, e2⟩ := c6 i hcn
      obtain ⟨f1, f2⟩ := ihout i hio
      exact ⟨by rw [hstep1, e1, f1], by rw [hstep2, e2, f2]⟩
    · intro i hi
      by_cases hcn : in_col (w * S) S (y * S * (w * S) + n * S) i
      · rw [hstep1, hstep2]
        exact c7 i hcn
      · have hix : ∃ x, x < n ∧ in_col (w * S) S (y * S * (w * S) + x * S) i := by
          obtain ⟨x, hx, hc⟩ := hi
          have hxn : x ≠ n := fun he => hcn (he ▸ hc)
          exact ⟨x, by omega, hc⟩
        obtain ⟨e1, e2⟩ := c6 i hcn
        rw [hstep1, hstep2, e1, e2]
        exact ihin i hix

/-- Membership of a destination index in the row of `S` by `S` blocks written
while processing source row `y`. -/
def in_row_block (w S y i : ℕ) : Prop :=
  ∃ x, x < w ∧ in_col (w * S) S (y * S * (w * S) + x * S) i

theorem process_row_two_run (S : ℕ) (src : List Rgba) (w h : ℕ)
    (cfg : ScalerConfig) (y : ℕ) (buf0 : List Blend2x2) (d1 d2 : List Rgba)
    (hL : d1.length = d2.length) :
    (process_row S src w h cfg (buf0, d1) y).2.length = d1.length ∧
    (process_row S src w h cfg (buf0, d2) y).2.length = d2.length ∧
    (∀ i, ¬in_row_block w S y i →
      (process_row S src w h cfg (buf0, d1) y).2.getD i zeroPixel =
          d1.getD i zeroPixel ∧
      (process_row S src w h cfg (buf0, d2) y).2.getD i zeroPixel =
          d2.getD i zeroPixel) ∧
    (∀ i, in_row_block w S y i →
      (process_row S src w h cfg (buf0, d1) y).2.getD i zeroPixel =
        (process_row S src w h cfg (buf0, d2) y).2.getD i zeroPixel) := by
  obtain ⟨_, _, _, h4, h5, h6, h7⟩ :=
    row_state_two_run S src w h cfg y buf0 d1 d2 hL w
  simp only [in_row_block]
  rw [process_row_eq_row_state, process_row_eq_row_state]
  exact ⟨h4, h5, h6, h7⟩

theorem in_row_block_bounds {w S y i : ℕ} (_hS : 0 < S)
    (hi : in_row_block w S y i) :
    y * (S * (w * S)) ≤ i ∧ i < (y + 1) * (S * (w * S)) := by
  obtain ⟨x, hx, jj, ii, hjj, hii, rfl⟩ := hi
  have h1 : x * S + S ≤ w * S := by
    nlinarith [Nat.mul_le_mul_right S (show x + 1 ≤ w by omega)]
  have h2 : jj * (w * S) + w * S ≤ S * (w * S) := by
    nlinarith [Nat.mul_le_mul_right (w * S) (show jj + 1 ≤ S by omega)]
  constructor
  · have e : y * (S * (w * S)) = y * S * (w * S) := by ring
    rw [e]
    linarith [Nat.zero_le (x * S), Nat.zero_le (jj * (w * S)), Nat.zero_le ii]
  · have e : (y + 1) * (S * (w * S)) = y * S * (w * S) + S * (w * S) := by ring
    rw [e]
    linarith

theorem in_row_block_disjoint {w S y1 y2 i : ℕ} (hS : 0 < S) (hw : 0 < w)
    (h1 : in_row_block w S y1 i) (h2 : in_row_block w S y2 i) : y1 = y2 := by
  have hK : 0 < S * (w * S) := by positivity
  obtain ⟨a1, b1⟩ := in_row_block_bounds hS h1
  obtain ⟨a2, b2⟩ := in_row_block_bounds hS h2
  by_contra hne
  rcases Nat.lt_or_ge y1 y2 with hlt | hge
  · have : (y1 + 1) * (S * (w * S)) ≤ y2 * (S * (w * S)) :=
      Nat.mul_le_mul_right _ (by omega)
    omega
  · have hlt2 : y2 < y1 := by omega
    have : (y2 + 1) * (S * (w * S)) ≤ y1 * (S * (w * S)) :=
      Nat.mul_le_mul_right _ (by omega)
    omega

/-- The destination contents produced for source row `y` on a length-`L`
destination: every run of the main loop over row `y` writes exactly these
values into row `y`'s blocks (they depend only on the source, the
configuration and `L`). -/
noncomputable def refRow (S : ℕ) (src : List Rgba) (w h : ℕ) (cfg : ScalerConfig)
    (L y : ℕ) : List Rgba :=
  (process_row S src w h cfg
    (canon_buf src w h cfg ((y : ℤ) - 1), List.replicate L zeroPixel) y).2

/-- The stripe fold state of `scale_image` after `r` rows starting at `a`. -/
noncomputable def stripe_state (S : ℕ) (src : List Rgba) (w h : ℕ)
    (cfg : ScalerConfig) (a : ℕ) (d0 : List Rgba) (r : ℕ) :
    List Blend2x2 × List Rgba :=
  (List.range' a r).foldl (process_row S src w h cfg)
    (pre_pass src w h cfg ((a : ℤ) - 1), d0)

theorem scale_image_eq_stripe_state (S : ℕ) (src : List Rgba) (w h : ℕ)
    (cfg : ScalerConfig) (a b : ℕ) (d0 : List Rgba) :
    scale_image S src d0 w h cfg a b =
      (stripe_state S src w h cfg a d0 (min b h - a)).2 := rfl

theorem canon_buf_length (src : List Rgba) (w h : ℕ) (cfg : ScalerConfig)
    (y : ℤ) : (canon_buf src w h cfg y).length = w := by
  simp [canon_buf]

theorem stripe_state_inv (S : ℕ) (src : List Rgba) (w h : ℕ)
    (cfg : ScalerConfig) (a : ℕ) (d0 : List Rgba) (hw : 0 < w) :
    ∀ r,
      (stripe_state S src w h cfg a d0 r).1 =
        canon_buf src w h cfg ((a : ℤ) + (r : ℤ) - 1) ∧
      (stripe_state S src w h cfg a d0 r).2.length = d0.length ∧
      (∀ i, (∀ y, a ≤ y → y < a + r → ¬in_row_block w S y i) →
        (stripe_state S src w h cfg a d0 r).2.getD i zeroPixel =
          d0.getD i zeroPixel) ∧
      (∀ y, a ≤ y → y < a + r → ∀ i, in_row_block w S y i →
        (stripe_state S src w h cfg a d0 r).2.getD i zeroPixel =
          (refRow S src w h cfg d0.length y).getD i zeroPixel) := by
  intro r
  induction r with
  | zero =>
    refine ⟨?_, rfl, fun i _ => rfl, fun y hy1 hy2 => by omega⟩
    have e0 : (a : ℤ) + ((0 : ℕ) : ℤ) - 1 = (a : ℤ) - 1 := by push_cast; ring
    rw [e0]
    exact pre_pass_eq_canon src w h cfg _ hw
  | succ r ih =>
    obtain ⟨ih1, ih2, ih3, ih4⟩ := ih
    have hstep : stripe_state S src w h cfg a d0 (r + 1) =
        process_row S src w h cfg (stripe_state S src w h cfg a d0 r) (a + r) := by
      unfold stripe_state
      rw [List.range'_concat, List.foldl_append, List.foldl_cons, List.foldl_nil,
        one_mul]
    have hpair : stripe_state S src w h cfg a d0 r =
        (canon_buf src w h cfg ((a : ℤ) + (r : ℤ) - 1),
          (stripe_state S src w h cfg a d0 r).2) := by
      rw [← ih1]
    have hcast : ((a + r : ℕ) : ℤ) - 1 = (a : ℤ) + (r : ℤ) - 1 := by push_cast; ring
    obtain ⟨t1, t2, t3, t4⟩ :=
      process_row_two_run S src w h cfg (a + r)
        (canon_buf src w h cfg ((a : ℤ) + (r : ℤ) - 1))
        (stripe_state S src w h cfg a d0 r).2
        (List.replicate d0.length zeroPixel)
        (by rw [ih2, List.length_replicate])
    refine ⟨?_, ?_, ?_, ?_⟩
    · rw [hstep, hpair]
      have := process_row_buf_canon S src w h cfg (a + r)
        (canon_buf src w h cfg ((a : ℤ) + (r : ℤ) - 1))
        (stripe_state S src w h cfg a d0 r).2
        (canon_buf_length src w h cfg _) hw
      rw [this]
      have hcast2 : ((a + r : ℕ) : ℤ) = (a : ℤ) + ((r + 1 : ℕ) : ℤ) - 1 := by
        push_cast
        ring
      rw [hcast2]
    · rw [hstep, hpair, t1, ih2]
    · intro i hi
      rw [hstep, hpair]
      have hnb : ¬in_row_block w S (a + r) i := hi (a + r) (by omega) (by omega)
      rw [(t3 i hnb).1]
      exact ih3 i (fun y hy1 hy2 => hi y hy1 (by omega))
    · intro y hy1 hy2 i hib
      rw [hstep, hpair]
      by_cases hyr : y = a + r
      · subst hyr
        rw [t4 i hib]
        unfold refRow
        rw [hcast]
      · have hyr2 : y < a + r := by omega
        have hnb : ¬in_row_block w S (a + r) i := by
          intro hb2
          by_cases hS : 0 < S
          · exact hyr (in_row_block_disjoint hS hw hib hb2)
          · obtain ⟨x, hx, jj, ii, hjj, _⟩ := hib
            omega
        rw [(t3 i hnb).1]
        exact ih4 y hy1 hyr2 i hib

theorem fold_stripes_inv (S : ℕ) (src : List Rgba) (w h : ℕ)
    (cfg : ScalerConfig) (hw : 0 < w) (hS : 0 < S) :
    ∀ (rs : List (ℕ × ℕ)) (d : List Rgba) (L : ℕ), d.length = L →
      (rs.foldl (fun dd r => scale_image S src dd w h cfg r.1 r.2) d).length = L ∧
      (∀ i, (∀ y, y < h → ¬in_row_block w S y i) →
        (rs.foldl (fun dd r => scale_image S src dd w h cfg r.1 r.2) d).getD i
            zeroPixel = d.getD i zeroPixel) ∧
      (∀ y, y < h → ∀ i, in_row_block w S y i →
        ((∃ r ∈ rs, r.1 ≤ y ∧ y < r.2) →
          (rs.foldl (fun dd r => scale_image S src dd w h cfg r.1 r.2) d).getD i
              zeroPixel = (refRow S src w h cfg L y).getD i zeroPixel) ∧
        (¬(∃ r ∈ rs, r.1 ≤ y ∧ y < r.2) →
          (rs.foldl (fun dd r => scale_image S src dd w h cfg r.1 r.2) d).getD i
              zeroPixel = d.getD i zeroPixel)) := by
  intro rs
  induction rs with
  | nil =>
    intro d L hdL
    refine ⟨hdL, fun i _ => rfl, fun y _ i _ => ⟨?_, fun _ => rfl⟩⟩
    rintro ⟨r, hr, _⟩
    cases hr
  | cons r rs ih =>
    intro d L hdL
    obtain ⟨s1, s2, s3, s4⟩ :=
      stripe_state_inv S src w h cfg r.1 d hw (min r.2 h - r.1)
    have hd' : scale_image S src d w h cfg r.1 r.2 =
        (stripe_state S src w h cfg r.1 d (min r.2 h - r.1)).2 :=
      scale_image_eq_stripe_state S src w h cfg r.1 r.2 d
    have hL' : (scale_image S src d w h cfg r.1 r.2).length = L := by
      rw [hd', s2, hdL]
    obtain ⟨f1, f2, f3⟩ := ih (scale_image S src d w h cfg r.1 r.2) L hL'
    rw [List.foldl_cons]
    refine ⟨f1, ?_, ?_⟩
    · intro i hi
      rw [f2 i hi, hd']
      exact s3 i (fun y' hy1 hy2 => hi y' (by omega))
    · intro y hy i hib
      obtain ⟨ihc, ihn⟩ := f3 y hy i hib
      constructor
      · intro hcov
        by_cases hrs : ∃ r' ∈ rs, r'.1 ≤ y ∧ y < r'.2
        · exact ihc hrs
        · have hrc : r.1 ≤ y ∧ y < r.2 := by
            obtain ⟨r', hr', hc⟩ := hcov
            rcases List.mem_cons.mp hr' with he | hm
            · rw [← he]
              exact hc
            · exact absurd ⟨r', hm, hc⟩ hrs
          rw [ihn hrs, hd', s4 y hrc.1 (by omega) i hib, hdL]
      · intro hncov
        have hrs : ¬∃ r' ∈ rs, r'.1 ≤ y ∧ y < r'.2 := by
          rintro ⟨r', hm, hc⟩
          exact hncov ⟨r', List.mem_cons_of_mem r hm, hc⟩
        rw [ihn hrs, hd']
        apply s3
        intro y' hy1 hy2 hib'
        have hee : y' = y := in_row_block_disjoint hS hw hib' hib
        subst hee
        exact hncov ⟨r, List.mem_cons_self r rs, hy1, by omega⟩

/-- C3: for every source, configuration and destination, a blocked (0 < w,
0 < S) run of `scale_image` over the single stripe `0..h` coincides with the
sequential composition of runs over any family of row ranges that covers
every row `0 <= y < h` (in particular any partition of `[0, h)` into
contiguous non-empty sub-ranges, in any order), all runs sharing one
destination buffer. -/
theorem scale_image_stripe_partition (S : ℕ) (src : List Rgba) (w h : ℕ)
    (cfg : ScalerConfig) (dest : List Rgba) (rs : List (ℕ × ℕ))
    (hS : 0 < S) (hw : 0 < w)
    (hcover : ∀ y, y < h → ∃ r ∈ rs, r.1 ≤ y ∧ y < r.2) :
    rs.foldl (fun d r => scale_image S src d w h cfg r.1 r.2) dest =
      scale_image S src dest w h cfg 0 h := by
  obtain ⟨f1, f2, f3⟩ :=
    fold_stripes_inv S src w h cfg hw hS rs dest dest.length rfl
  obtain ⟨s1, s2, s3, s4⟩ :=
    stripe_state_inv S src w h cfg 0 dest hw (min h h - 0)
  have hfull : scale_image S src dest w h cfg 0 h =
      (stripe_state S src w h cfg 0 dest (min h h - 0)).2 :=
    scale_image_eq_stripe_state S src w h cfg 0 h dest
  have hLfull : (scale_image S src dest w h cfg 0 h).length = dest.length := by
    rw [hfull, s2]
  apply List.ext_getElem (by rw [f1, hLfull])
  intro i h1i h2i
  have e1 : (rs.foldl (fun d r => scale_image S src d w h cfg r.1 r.2) dest)[i] =
      (rs.foldl (fun d r => scale_image S src d w h cfg r.1 r.2) dest).getD i
        zeroPixel :=
    (getD_eq_getElem _ _ _ h1i).symm
  have e2 : (scale_image S src dest w h cfg 0 h)[i] =
      (scale_image S src dest w h cfg 0 h).getD i zeroPixel :=
    (getD_eq_getElem _ _ _ h2i).symm
  rw [e1, e2]
  by_cases hblk : ∃ y, y < h ∧ in_row_block w S y i
  · obtain ⟨y, hy, hib⟩ := hblk
    rw [(f3 y hy i hib).1 (hcover y hy), hfull,
      s4 y (by omega) (by omega) i hib]
  · rw [f2 i (fun y hy hib => hblk ⟨y, hy, hib⟩), hfull]
    exact (s3 i (fun y hy1 hy2 hib => hblk ⟨y, by omega, hib⟩)).symm

theorem scale_image_stripe_partition_witness :
    ((0 : ℕ) < 2 ∧ (0 : ℕ) < 1 ∧
      (∀ y, y < 1 → ∃ r ∈ [((0 : ℕ), (1 : ℕ))], r.1 ≤ y ∧ y < r.2)) ∧
    [((0 : ℕ), (1 : ℕ))].foldl
        (fun d r => scale_image 2 [⟨255, 0, 0, 255⟩] d 1 1 default_config r.1 r.2)
        (List.replicate 4 zeroPixel) =
      scale_image 2 [⟨255, 0, 0, 255⟩] (List.replicate 4 zeroPixel) 1 1
        default_config 0 1 :=
  ⟨⟨by decide, by decide, by decide⟩,
    scale_image_stripe_partition 2 [⟨255, 0, 0, 255⟩] 1 1 default_config
      (List.replicate 4 zeroPixel) [((0 : ℕ), (1 : ℕ))] (by decide) (by decide)
      (by decide)⟩

/-- Counterexample to C1 as stated: scaling the 1-by-1 opaque red image by
factor 2 does not yield four `FF 00 00 FF` pixels — the transparent
out-of-image border triggers corner blending with the zero pixel, fading
three of the four destination pixels to alpha `C9` (201). -/
theorem uniform_red_not_preserved :
    scale_rgba [255, 0, 0, 255] 1 1 2 =
      Except.ok [255, 0, 0, 201, 255, 0, 0, 255, 255, 0, 0, 201, 255, 0, 0, 201] ∧
    scale_rgba [255, 0, 0, 255] 1 1 2 ≠
      Except.ok [255, 0, 0, 255, 255, 0, 0, 255, 255, 0, 0, 255, 255, 0, 0, 255] := by
  refine ⟨red_scale_rgba, ?_⟩
  rw [red_scale_rgba]
  intro h
  injection h with h2
  exact absurd h2 (by decide)

/-- C1 amended: an opaque uniform image is not preserved at the transparent
border; concretely, the 1-by-1 opaque red image scaled by factor 2 yields
the sixteen bytes `FF 00 00 C9, FF 00 00 FF, FF 00 00 C9, FF 00 00 C9`
(RGB preserved everywhere, alpha faded to 201 by the 21/100 corner blend in
three corner cells). -/
theorem uniform_red_scale2_output :
    scale_rgba [255, 0, 0, 255] 1 1 2 =
      Except.ok [255, 0, 0, 201, 255, 0, 0, 255, 255, 0, 0, 201, 255, 0, 0, 201] :=
  red_scale_rgba

/-- Counterexample to C8 as stated: a 1-by-1 source with alpha 0 but nonzero
RGB scales to copies of itself, not to zero pixels — `fill_block` copies the
centre pixel and no blending fires. -/
theorem transparent_pixel_not_zero_output :
    scale_rgba [1, 2, 3, 0] 1 1 2 =
      Except.ok (pixels_to_bytes (List.replicate 4 (⟨1, 2, 3, 0⟩ : Rgba))) ∧
    scale_rgba [1, 2, 3, 0] 1 1 2 ≠ Except.ok (List.replicate 16 0) := by
  refine ⟨tp_rgba_2 1 2 3, ?_⟩
  rw [tp_rgba_2 1 2 3]
  intro h
  injection h with h2
  exact absurd h2 (by decide)

/-- C8 amended: for every 1-by-1 source whose pixel has alpha 0 (RGB
arbitrary) and every factor in 2..6, the destination consists entirely of
copies of the source pixel: the alpha channel is 0 everywhere but the RGB
channels are preserved, not zeroed. -/
theorem scale_alpha0_pixel_copies (r g b : ℕ) :
    scale_rgba [r, g, b, 0] 1 1 2 =
      Except.ok (pixels_to_bytes (List.replicate 4 (⟨r, g, b, 0⟩ : Rgba))) ∧
    scale_rgba [r, g, b, 0] 1 1 3 =
      Except.ok (pixels_to_bytes (List.replicate 9 (⟨r, g, b, 0⟩ : Rgba))) ∧
    scale_rgba [r, g, b, 0] 1 1 4 =
      Except.ok (pixels_to_bytes (List.replicate 16 (⟨r, g, b, 0⟩ : Rgba))) ∧
    scale_rgba [r, g, b, 0] 1 1 5 =
      Except.ok (pixels_to_bytes (List.replicate 25 (⟨r, g, b, 0⟩ : Rgba))) ∧
    scale_rgba [r, g, b, 0] 1 1 6 =
      Except.ok (pixels_to_bytes (List.replicate 36 (⟨r, g, b, 0⟩ : Rgba))) :=
  ⟨tp_rgba_2 r g b, tp_rgba_3 r g b, tp_rgba_4 r g b, tp_rgba_5 r g b,
    tp_rgba_6 r g b⟩

end Xbrz
